import Mathlib

/-
Verification of the Paper_Guider scraper (src/scrapper.py) against its
natural-language specification.

The development shallowly embeds the scraper into Lean 4:

* Python strings become String (with list-of-Char manipulation mirroring
  str.strip, str.split, "sep" in s, s.split(sep, 1), s.startswith).
* The DOM trees that requests/BeautifulSoup and Selenium observe become
  explicit data (records listing exactly the elements the code queries);
  a bounded WebDriverWait that never sees its element is an Option none /
  empty-list case, since the code treats timeout and absence identically
  (both raise, and every raise is caught by the same broad except blocks).
* Each Python function becomes a Lean function of the same name; raising
  an exception that escapes a function becomes Except.error; an exception
  caught inside the function is modelled by the value the handler returns.
* The json.dump / json.load collaborators become an executable printer
  (jemit, mirroring json.dump with ensure_ascii=False, indent=4) and an
  executable recursive-descent reader (jparse, mirroring json.load on the
  fragment of JSON the scraper emits: objects, arrays, strings, null;
  duplicate object keys are collapsed last-wins, as Python dicts do).
-/

/-! ### Python string primitives -/

/-- Whitespace in the sense of str.strip / str.split (ASCII subset). -/
def pyIsSpace (c : Char) : Bool :=
  c = ' ' || c = '\t' || c = '\n' || c = '\r' || c = '\x0b' || c = '\x0c'

/-- Remove leading whitespace (left part of str.strip). -/
def trimLeft (l : List Char) : List Char := l.dropWhile pyIsSpace

/-- Remove trailing whitespace (right part of str.strip). -/
def trimRight (l : List Char) : List Char := (l.reverse.dropWhile pyIsSpace).reverse

/-- Characters of str.strip: drop whitespace from both ends. -/
def stripChars (l : List Char) : List Char := trimRight (trimLeft l)

/-- Python str.strip() with no arguments. -/
def pyStrip (s : String) : String := String.mk (stripChars s.data)

/-- First element of str.split() (split on whitespace runs): none when the
string has no token, in which case the subscript [0] in the source raises. -/
def firstTok (s : String) : Option String :=
  let t := (s.data.dropWhile pyIsSpace).takeWhile (fun c => !pyIsSpace c)
  if t = [] then none else some (String.mk t)

/-- Python s.split(sep, 1) at the first occurrence of sep, returning the text
before and after it; none when sep does not occur (the source guards the
split with a containment test, so both are one match here). -/
def splitFirst (sep : List Char) : List Char → Option (List Char × List Char)
  | [] => if sep.isPrefixOf [] then some ([], []) else none
  | c :: rest =>
    if sep.isPrefixOf (c :: rest) then some ([], (c :: rest).drop sep.length)
    else (splitFirst sep rest).map (fun p => (c :: p.1, p.2))

/-- Site origin used to absolutize relative hrefs. -/
def BASE_URL : String := "https://paperswithcode.com"

/-- Python href.startswith("http"). -/
def startsWithHttp (s : String) : Bool := "http".data.isPrefixOf s.data

/-- The href absolutization both dynamic helpers perform:
if not href.startswith("http"): href = BASE_URL + href. -/
def resolveHref (href : String) : String :=
  if startsWithHttp href then href else BASE_URL ++ href

/-! ### Static-fetch data model (requests + BeautifulSoup)

The records list exactly the DOM pieces fetch_initial_data and
get_topic_method_info read.  A field of type Option is an element whose
find call can return None, in which case the attribute access on None
raises and the run aborts (fetch_initial_data has no try/except). -/

/-- One div.text-muted inside a topic card.  spanNextSibling is the text in
card.find("div", text-muted).find("span").next_sibling: none when the span
or its sibling is missing.  textAll is the .text of the whole div. -/
structure TextMuted where
  spanNextSibling : Option String
  textAll : String
deriving DecidableEq

/-- One topic card of the catalog page: the h1 text, the first anchor's
href, and the list of div.text-muted children, each possibly absent. -/
structure Card where
  h1 : Option String
  anchorHref : Option String
  textMuted : List TextMuted
deriving DecidableEq

/-- One div.row.task-group-title section with its following card deck. -/
structure TopicGroup where
  h4 : Option String
  cardDeck : Option (List Card)
deriving DecidableEq

/-- The table inside div.method-content on a topic page: tbody holds the
rows, each row the raw (unstripped) texts of its td cells; a table without
a tbody makes find("tbody").find_all raise. -/
structure TableEl where
  tbody : Option (List (List String))
deriving DecidableEq

/-- A topic's own page as get_topic_method_info reads it: the optional
description div and the optional method-content div with optional table. -/
structure TopicPage where
  descriptionDiv : Option String
  methodContent : Option (Option TableEl)
deriving DecidableEq

/-- The static side of the site: the catalog's topic-group sections and,
for every topic link the code builds, that topic's page. -/
structure StaticSite where
  groups : List TopicGroup
  topicPage : String → TopicPage

/-- One row of the methods list (a dict literal in the source). -/
structure MethodRow where
  topic_name : String
  method : String
  year : String
  num_papers : String
  paper_name : Option String
deriving DecidableEq

/-- One entry of extracted_info (a dict literal in the source); the count
fields are the strings split()[0] produced, never converted to numbers. -/
structure TopicInfo where
  topic_name : String
  ml_field : String
  num_methods : String
  num_papers : String
  topic_link : String
deriving DecidableEq

/-- The separator the method table's first column is split on. -/
def tripleNewline : List Char := ['\n', '\n', '\n']

/-- Body of the row loop in get_topic_method_info: strip every td text,
require at least 3 columns (otherwise nothing is appended), split the first
column on the triple newline when it occurs (method_name.strip(), raw
remainder) and otherwise keep it whole with paper None. -/
def method_row_of_tds (topic_name : String) (tds : List String) : Option MethodRow :=
  let cols := tds.map pyStrip
  if 3 ≤ cols.length then
    match splitFirst tripleNewline (cols.getD 0 "").data with
    | some (pre, post) =>
      some { topic_name := topic_name
             method := pyStrip (String.mk pre)
             year := cols.getD 1 ""
             num_papers := cols.getD 2 ""
             paper_name := some (String.mk post) }
    | none =>
      some { topic_name := topic_name
             method := pyStrip (cols.getD 0 "")
             year := cols.getD 1 ""
             num_papers := cols.getD 2 ""
             paper_name := none }
  else none

/-- get_topic_method_info, given the already-fetched topic page: returns the
optional description and the rows it appends to methods_list.  A table with
no tbody raises (error); a missing method-content div or missing table just
contributes no rows. -/
def get_topic_method_info (page : TopicPage) (topic_name : String) :
    Except Unit (Option String × List MethodRow) :=
  let description := page.descriptionDiv.map pyStrip
  match page.methodContent with
  | none => .ok (description, [])
  | some none => .ok (description, [])
  | some (some tbl) =>
    match tbl.tbody with
    | none => .error ()
    | some rows => .ok (description, rows.filterMap (method_row_of_tds topic_name))

/-- num_methods extraction of fetch_initial_data:
card.find("div", text-muted).find("span").next_sibling.strip().split()[0];
each missing piece raises (none). -/
def cardNumMethods (card : Card) : Option String :=
  card.textMuted.head?.bind fun tm =>
    tm.spanNextSibling.bind fun sn => firstTok (pyStrip sn)

/-- num_papers extraction of fetch_initial_data:
card.find_all("div", text-muted)[1].text.strip().split()[0];
a missing second div or an empty token list raises (none). -/
def cardNumPapers (card : Card) : Option String :=
  match card.textMuted[1]? with
  | none => none
  | some tm => firstTok (pyStrip tm.textAll)

/-- Handling of one card inside fetch_initial_data's loop: topic name from
the h1, topic link from the first anchor, the helper call for the method
rows, then the summary dict.  Any missing element raises and the error
escapes fetch_initial_data (there is no per-card handler in the source). -/
def process_card (site : StaticSite) (ml_field : String) (card : Card) :
    Except Unit (TopicInfo × List MethodRow) :=
  match card.h1 with
  | none => .error ()
  | some h1Text =>
    let topic_name := pyStrip h1Text
    match card.anchorHref with
    | none => .error ()
    | some href =>
      let topic_link := BASE_URL ++ href
      match get_topic_method_info (site.topicPage topic_link) topic_name with
      | .error e => .error e
      | .ok (_, rows) =>
        match cardNumMethods card with
        | none => .error ()
        | some nm =>
          match cardNumPapers card with
          | none => .error ()
          | some np =>
            .ok ({ topic_name := topic_name, ml_field := ml_field,
                   num_methods := nm, num_papers := np,
                   topic_link := topic_link }, rows)

/-- The card loop of fetch_initial_data over one card deck. -/
def process_cards (site : StaticSite) (ml_field : String) :
    List Card → Except Unit (List TopicInfo × List MethodRow)
  | [] => .ok ([], [])
  | c :: cs =>
    match process_card site ml_field c with
    | .error e => .error e
    | .ok (info, rows) =>
      match process_cards site ml_field cs with
      | .error e => .error e
      | .ok (infos, ms) => .ok (info :: infos, rows ++ ms)

/-- One topic-group section: ml_field from the h4 (raising when absent), and
the card deck when find_next located one (otherwise no cards). -/
def process_group (site : StaticSite) (g : TopicGroup) :
    Except Unit (List TopicInfo × List MethodRow) :=
  match g.h4 with
  | none => .error ()
  | some h4Text =>
    match g.cardDeck with
    | none => .ok ([], [])
    | some cards => process_cards site (pyStrip h4Text) cards

/-- The group loop of fetch_initial_data. -/
def process_groups (site : StaticSite) :
    List TopicGroup → Except Unit (List TopicInfo × List MethodRow)
  | [] => .ok ([], [])
  | g :: gs =>
    match process_group site g with
    | .error e => .error e
    | .ok (infos, ms) =>
      match process_groups site gs with
      | .error e => .error e
      | .ok (infos', ms') => .ok (infos ++ infos', ms ++ ms')

/-- fetch_initial_data: builds extracted_info and methods from the catalog
page; any element-not-found inside the loops escapes uncaught. -/
def fetch_initial_data (site : StaticSite) :
    Except Unit (List TopicInfo × List MethodRow) :=
  process_groups site site.groups

/-! ### Dynamic-crawl data model (Selenium)

The driver's observable world is a DynSite: what every paper detail page
shows, and which listing pages every method-group link leads to.  A listing
page records the paper hrefs in div.black-links, whether the wait for a
clickable next control succeeds on it, and whether the disabled-next marker
is present on it (the code checks that marker on the page it just reached). -/

/-- A paper detail page as extract_text_from_page reads it: whether the
abstract container div.paper-abstract appears within the wait, the text of
the h1 inside div.paper-title (none when the chain of find_element calls
raises), and the text of the p inside div.col-md-12 of the abstract. -/
structure PaperDOM where
  abstractAppears : Bool
  titleH1 : Option String
  abstractP : Option String

/-- What extract_text_from_page returns: the stripped pair on success, or
the single empty string the except branch returns on any failure. -/
inductive ExtractResult where
  | ok (title text : String)
  | failureEmptyString
deriving DecidableEq

/-- Boolean failure test for ExtractResult. -/
def ExtractResult.isFailure : ExtractResult → Bool
  | .ok _ _ => false
  | .failureEmptyString => true

/-- extract_text_from_page: wait for div.paper-abstract, then read the title
h1 and the abstract p; on timeout or any missing element the except branch
returns the empty string (not a pair). -/
def extract_text_from_page (p : PaperDOM) : ExtractResult :=
  if p.abstractAppears then
    match p.titleH1, p.abstractP with
    | some t, some a => .ok (pyStrip t) (pyStrip a)
    | _, _ => .failureEmptyString
  else .failureEmptyString

/-- One pagination page of a method-group listing. -/
structure ListingPage where
  links : List String
  nextClickable : Bool
  nextDisabledMarker : Bool
deriving DecidableEq

instance : Inhabited ListingPage := ⟨⟨[], false, false⟩⟩

/-- The dynamic side of the site: each (resolved) paper URL's detail page,
and each method-group link's listing pages in order. -/
structure DynSite where
  paper : String → PaperDOM
  group : String → List ListingPage

/-- The per-URL loop of process_black_links.  Each iteration opens a tab,
runs extract_text_from_page and appends title and text.  When extraction
fails it returns a bare string, and unpacking it into (title, text) raises
ValueError before either append; the broad except of process_black_links
catches it, so the dictionary keeps only the entries of the URLs already
processed and the loop never reaches the remaining URLs.  The Bool records
whether the loop finished cleanly (on failure the opened tab is never
closed, so the driver is left focused on the paper tab). -/
def extract_urls_loop (site : DynSite) : List String → List String × List String × Bool
  | [] => ([], [], true)
  | url :: rest =>
    match extract_text_from_page (site.paper url) with
    | .failureEmptyString => ([], [], false)
    | .ok t x =>
      let r := extract_urls_loop site rest
      (t :: r.1, x :: r.2.1, r.2.2)

/-- process_black_links: wait for the div.black-links anchors (a page with
none raises the timeout, caught, returning the fresh empty lists), resolve
every href, then run the per-URL loop.  Returns the title/text lists and
whether the driver is still focused on the listing window. -/
def process_black_links (site : DynSite) (links : List String) :
    (List String × List String) × Bool :=
  if links = [] then (([], []), true)
  else
    let r := extract_urls_loop site (links.map resolveHref)
    ((r.1, r.2.1), r.2.2)

/-- How the pagination loop of process_method_image stopped. -/
inductive TermKind where
  | noNext
  | disabledMarker
  | ceiling
deriving DecidableEq

/-- Result of process_method_image: the per-page entries it accumulated, the
loop's termination path, and how many next-clicks it performed. -/
structure HarvestOutcome where
  results : List (List String × List String)
  term : TermKind
  clicks : Nat
deriving DecidableEq

/-- The while loop of process_method_image.  pos is the index of the listing
page the driver shows; fuel is 10 - page_counter.  Each iteration harvests
the current page and appends the entry; if the harvest lost window focus the
next-button wait runs against a paper tab and raises (break); otherwise it
waits for a clickable next control (absence raises: break), clicks (moving
to the following page and counting one click, page_counter += 1), and breaks
when the freshly reached page carries the disabled-next marker. -/
def harvest_loop (site : DynSite) (pages : List ListingPage) :
    Nat → Nat → HarvestOutcome
  | _, 0 => ⟨[], .ceiling, 0⟩
  | pos, fuel + 1 =>
    let page := pages.getD pos default
    let harvested := process_black_links site page.links
    let entry := harvested.1
    if harvested.2 = false then ⟨[entry], .noNext, 0⟩
    else if page.nextClickable then
      let landed := pages.getD (pos + 1) default
      if landed.nextDisabledMarker then ⟨[entry], .disabledMarker, 1⟩
      else
        let r := harvest_loop site pages (pos + 1) fuel
        ⟨entry :: r.results, r.term, r.clicks + 1⟩
    else ⟨[entry], .noNext, 0⟩

/-- process_method_image: navigate to the group link's listing and run the
pagination loop with page_counter = 0 (fuel 10). -/
def process_method_image (site : DynSite) (pages : List ListingPage) :
    HarvestOutcome :=
  harvest_loop site pages 0 10

/-- One div.method-image container on a topic page: the href of the anchor
inside it, none when find_element raises (that group is skipped, logged). -/
structure MethodDiv where
  anchorHref : Option String
deriving DecidableEq

/-- A topic detail page for process_topic_link: the method-image containers
in discovery order; an empty list is the wait timing out. -/
structure TopicDyn where
  methodDivs : List MethodDiv
deriving DecidableEq

/-- The method_links list process_topic_link builds: at most the first 20
containers, each contributing its resolved href when extraction succeeded. -/
def methodLinks (topic : TopicDyn) : List String :=
  (topic.methodDivs.take 20).filterMap (fun d => d.anchorHref.map resolveHref)

/-- The results dictionary and the order in which the harvester was run. -/
structure TopicLinkResult where
  resultsMap : String → Option (List (List String × List String))
  processedOrder : List String

/-- One iteration of the link loop of process_topic_link: run the harvester
for the link, store its result under the link, and record the invocation. -/
def topicLinkStep (site : DynSite) (acc : TopicLinkResult) (link : String) : TopicLinkResult :=
  ⟨fun l => if l = link
      then some (process_method_image site (site.group link)).results
      else acc.resultsMap l,
   acc.processedOrder ++ [link]⟩

/-- process_topic_link: wait for div.method-image containers (none appearing
returns the empty dictionary), build method_links, then run
process_method_image once per link, storing the result under that link. -/
def process_topic_link (site : DynSite) (topic : TopicDyn) : TopicLinkResult :=
  if topic.methodDivs = [] then ⟨fun _ => none, []⟩
  else (methodLinks topic).foldl (topicLinkStep site) ⟨fun _ => none, []⟩

/-! ### Harvester lemmas -/

/-- The per-URL loop produces equally many titles and texts. -/
theorem extract_urls_loop_len (site : DynSite) :
    ∀ urls, (extract_urls_loop site urls).1.length = (extract_urls_loop site urls).2.1.length := by
  intro urls
  induction urls with
  | nil => simp [extract_urls_loop]
  | cons u rest ih =>
    simp only [extract_urls_loop]
    cases h : extract_text_from_page (site.paper u) with
    | failureEmptyString => simp
    | ok t x => simpa using ih

/-- Every page entry has equally many titles and texts. -/
theorem process_black_links_len (site : DynSite) (links : List String) :
    (process_black_links site links).1.1.length = (process_black_links site links).1.2.length := by
  by_cases h : links = []
  · simp [process_black_links, h]
  · simp [process_black_links, h, extract_urls_loop_len]

/-- When every extraction succeeds the per-URL loop finishes cleanly. -/
theorem extract_urls_loop_ok (site : DynSite) :
    ∀ urls, (∀ u ∈ urls, (extract_text_from_page (site.paper u)).isFailure = false) →
      (extract_urls_loop site urls).2.2 = true := by
  intro urls
  induction urls with
  | nil => intro _; simp [extract_urls_loop]
  | cons u rest ih =>
    intro h
    simp only [extract_urls_loop]
    cases hu : extract_text_from_page (site.paper u) with
    | failureEmptyString =>
      have := h u (by simp)
      rw [hu] at this
      simp [ExtractResult.isFailure] at this
    | ok t x =>
      simpa using ih (fun v hv => h v (by simp [hv]))

/-- When every link's extraction succeeds, window focus is kept. -/
theorem process_black_links_ok (site : DynSite) (links : List String)
    (h : ∀ l ∈ links, (extract_text_from_page (site.paper (resolveHref l))).isFailure = false) :
    (process_black_links site links).2 = true := by
  by_cases hn : links = []
  · simp [process_black_links, hn]
  · simp only [process_black_links, hn, if_false]
    exact extract_urls_loop_ok site _ (by
      intro u hu
      obtain ⟨l, hl, rfl⟩ := List.mem_map.mp hu
      exact h l hl)

/-- A well-formed method-group listing, in the sense the specification's
testable properties assume: every paper page of the listing renders (so no
extraction failure disturbs window focus), only the last page lacks a
clickable next control, and no page shows the disabled-next marker. -/
def wellFormedListing (site : DynSite) (pages : List ListingPage) : Prop :=
  (∀ i < pages.length, ∀ l ∈ (pages.getD i default).links,
      (extract_text_from_page (site.paper (resolveHref l))).isFailure = false)
  ∧ (∀ i < pages.length, (pages.getD i default).nextDisabledMarker = false)
  ∧ (∀ i < pages.length, ((pages.getD i default).nextClickable = true ↔ i + 1 < pages.length))

instance (site : DynSite) (pages : List ListingPage) :
    Decidable (wellFormedListing site pages) := by
  unfold wellFormedListing
  infer_instance

/-- Step equation: clean harvest, clickable next, no disabled marker on the
page reached: the loop recurses after one click. -/
theorem harvest_loop_succ_cont (site : DynSite) (pages : List ListingPage) (pos f : Nat)
    (hbl : (process_black_links site ((pages.getD pos default).links)).2 = true)
    (hc : (pages.getD pos default).nextClickable = true)
    (hd : (pages.getD (pos + 1) default).nextDisabledMarker = false) :
    harvest_loop site pages pos (f + 1) =
      ⟨(process_black_links site ((pages.getD pos default).links)).1 ::
          (harvest_loop site pages (pos + 1) f).results,
        (harvest_loop site pages (pos + 1) f).term,
        (harvest_loop site pages (pos + 1) f).clicks + 1⟩ := by
  simp only [harvest_loop]
  rw [hbl, hc, hd]
  simp

/-- Step equation: clean harvest but no clickable next control: the wait
raises and the loop breaks after recording the current page. -/
theorem harvest_loop_succ_stop (site : DynSite) (pages : List ListingPage) (pos f : Nat)
    (hbl : (process_black_links site ((pages.getD pos default).links)).2 = true)
    (hc : (pages.getD pos default).nextClickable = false) :
    harvest_loop site pages pos (f + 1) =
      ⟨[(process_black_links site ((pages.getD pos default).links)).1],
        TermKind.noNext, 0⟩ := by
  simp only [harvest_loop]
  rw [hbl, hc]
  simp

/-- Step equation: harvest lost window focus, so the next-button wait runs
against a paper tab and raises: the loop breaks. -/
theorem harvest_loop_succ_focus (site : DynSite) (pages : List ListingPage) (pos f : Nat)
    (hbl : (process_black_links site ((pages.getD pos default).links)).2 = false) :
    harvest_loop site pages pos (f + 1) =
      ⟨[(process_black_links site ((pages.getD pos default).links)).1],
        TermKind.noNext, 0⟩ := by
  simp only [harvest_loop]
  rw [hbl]
  simp

/-- Step equation: clean harvest, click performed, and the page reached
shows the disabled-next marker: the loop breaks after the click. -/
theorem harvest_loop_succ_disabled (site : DynSite) (pages : List ListingPage) (pos f : Nat)
    (hbl : (process_black_links site ((pages.getD pos default).links)).2 = true)
    (hc : (pages.getD pos default).nextClickable = true)
    (hd : (pages.getD (pos + 1) default).nextDisabledMarker = true) :
    harvest_loop site pages pos (f + 1) =
      ⟨[(process_black_links site ((pages.getD pos default).links)).1],
        TermKind.disabledMarker, 1⟩ := by
  simp only [harvest_loop]
  rw [hbl, hc, hd]
  simp

/-- On a well-formed listing reaching the last page within fuel, the loop
harvests every remaining page and stops at the absent next control. -/
theorem harvest_loop_noNext (site : DynSite) (pages : List ListingPage)
    (hwf : wellFormedListing site pages) :
    ∀ fuel pos, pos < pages.length → pages.length ≤ pos + fuel →
      (harvest_loop site pages pos fuel).results.length = pages.length - pos ∧
      (harvest_loop site pages pos fuel).term = TermKind.noNext ∧
      (harvest_loop site pages pos fuel).clicks = pages.length - pos - 1 := by
  obtain ⟨hok, hdis, hclick⟩ := hwf
  intro fuel
  induction fuel with
  | zero => intro pos h1 h2; omega
  | succ f ih =>
    intro pos h1 h2
    have hbl : (process_black_links site ((pages.getD pos default).links)).2 = true :=
      process_black_links_ok _ _ (hok pos h1)
    by_cases hlast : pos + 1 < pages.length
    · have hc : (pages.getD pos default).nextClickable = true := (hclick pos h1).mpr hlast
      have hd : (pages.getD (pos + 1) default).nextDisabledMarker = false := hdis (pos + 1) hlast
      have hrec := ih (pos + 1) hlast (by omega)
      rw [harvest_loop_succ_cont site pages pos f hbl hc hd]
      refine ⟨?_, hrec.2.1, ?_⟩
      · simp only [List.length_cons, hrec.1]; omega
      · simp only [hrec.2.2]; omega
    · have hc : (pages.getD pos default).nextClickable = false := by
        cases hb : (pages.getD pos default).nextClickable
        · rfl
        · exact absurd ((hclick pos h1).mp hb) hlast
      rw [harvest_loop_succ_stop site pages pos f hbl hc]
      refine ⟨?_, rfl, ?_⟩ <;> simp <;> omega

/-- On a well-formed listing whose pages outrun the fuel, the loop exhausts
its fuel, harvesting one page and clicking once per unit of fuel. -/
theorem harvest_loop_ceiling (site : DynSite) (pages : List ListingPage)
    (hwf : wellFormedListing site pages) :
    ∀ fuel pos, pos + fuel < pages.length →
      (harvest_loop site pages pos fuel).results.length = fuel ∧
      (harvest_loop site pages pos fuel).term = TermKind.ceiling ∧
      (harvest_loop site pages pos fuel).clicks = fuel := by
  obtain ⟨hok, hdis, hclick⟩ := hwf
  intro fuel
  induction fuel with
  | zero => intro pos _; simp [harvest_loop]
  | succ f ih =>
    intro pos h
    have h1 : pos < pages.length := by omega
    have hbl : (process_black_links site ((pages.getD pos default).links)).2 = true :=
      process_black_links_ok _ _ (hok pos h1)
    have hlast : pos + 1 < pages.length := by omega
    have hc : (pages.getD pos default).nextClickable = true := (hclick pos h1).mpr hlast
    have hd : (pages.getD (pos + 1) default).nextDisabledMarker = false := hdis (pos + 1) hlast
    have hrec := ih (pos + 1) (by omega)
    rw [harvest_loop_succ_cont site pages pos f hbl hc hd]
    refine ⟨?_, hrec.2.1, ?_⟩
    · simp only [List.length_cons, hrec.1]
    · simp only [hrec.2.2]

/-- Whatever the listing and the site look like, the j-th harvested entry is
exactly what process_black_links returned on the j-th visited page. -/
theorem harvest_loop_entry (site : DynSite) (pages : List ListingPage) :
    ∀ fuel pos j, j < (harvest_loop site pages pos fuel).results.length →
      (harvest_loop site pages pos fuel).results.getD j ([], []) =
      (process_black_links site ((pages.getD (pos + j) default).links)).1 := by
  intro fuel
  induction fuel with
  | zero => intro pos j hj; simp [harvest_loop] at hj
  | succ f ih =>
    intro pos j hj
    cases hbl : (process_black_links site ((pages.getD pos default).links)).2 with
    | false =>
      rw [harvest_loop_succ_focus site pages pos f hbl] at hj ⊢
      simp only [List.length_cons, List.length_nil] at hj
      have : j = 0 := by omega
      subst this
      simp
    | true =>
      cases hc : (pages.getD pos default).nextClickable with
      | false =>
        rw [harvest_loop_succ_stop site pages pos f hbl hc] at hj ⊢
        simp only [List.length_cons, List.length_nil] at hj
        have : j = 0 := by omega
        subst this
        simp
      | true =>
        cases hd : (pages.getD (pos + 1) default).nextDisabledMarker with
        | true =>
          rw [harvest_loop_succ_disabled site pages pos f hbl hc hd] at hj ⊢
          simp only [List.length_cons, List.length_nil] at hj
          have : j = 0 := by omega
          subst this
          simp
        | false =>
          rw [harvest_loop_succ_cont site pages pos f hbl hc hd] at hj ⊢
          cases j with
          | zero => simp
          | succ j' =>
            simp only [List.length_cons] at hj
            have := ih (pos + 1) j' (by omega)
            simp only [List.getD_cons_succ]
            rw [(by omega : pos + (j' + 1) = pos + 1 + j')]
            exact this

/-- Specialization of the entry lemma to the full harvester. -/
theorem process_method_image_entry (site : DynSite) (pages : List ListingPage)
    (j : Nat) (hj : j < (process_method_image site pages).results.length) :
    (process_method_image site pages).results.getD j ([], []) =
    (process_black_links site ((pages.getD j default).links)).1 := by
  have := harvest_loop_entry site pages 10 0 j hj
  simpa using this

/-! ### Concrete dynamic instances used by witnesses and counterexamples -/

/-- A paper page whose abstract container never appears. -/
def exBadPaper : PaperDOM := ⟨false, none, none⟩

/-- A paper page that renders title and abstract. -/
def exGoodPaper : PaperDOM := ⟨true, some "Paper Title", some "Paper abstract."⟩

/-- A dynamic site where exactly the paper /paper/good extracts. -/
def exDynSite : DynSite :=
  ⟨fun u => if u = BASE_URL ++ "/paper/good" then exGoodPaper else exBadPaper,
   fun _ => []⟩

/-- A well-formed three-page listing (one extractable paper on page 1). -/
def exPages3 : List ListingPage :=
  [⟨[], true, false⟩, ⟨["/paper/good"], true, false⟩, ⟨[], false, false⟩]

/-- A well-formed eleven-page listing with no papers. -/
def exPages11 : List ListingPage :=
  (List.range 11).map (fun i => ⟨[], decide (i + 1 < 11), false⟩)

/-- A well-formed single listing page with no paper links. -/
def exPagesEmpty : List ListingPage := [⟨[], false, false⟩]

/-- Claim C1 (code_bug evaluation): on a listing page whose first paper
fails extraction and whose second would succeed, process_black_links
returns empty title and text lists (and loses window focus): the failure
return of extract_text_from_page (a bare string instead of a pair) raises
at the tuple unpacking, and the page-level except ends the link loop, so
the second paper's extractable title and abstract are dropped, contrary to
the claim that only the failing paper contributes nothing and the remaining
links of the page proceed unaffected. -/
theorem extraction_failure_aborts_page :
    (process_black_links exDynSite ["/paper/bad", "/paper/good"]).1 = ([], []) ∧
    (process_black_links exDynSite ["/paper/bad", "/paper/good"]).2 = false ∧
    extract_text_from_page (exDynSite.paper (resolveHref "/paper/good")) =
      ExtractResult.ok "Paper Title" "Paper abstract." ∧
    (process_black_links exDynSite ["/paper/good"]).1 = (["Paper Title"], ["Paper abstract."]) := by
  refine ⟨?_, ?_, ?_, ?_⟩ <;> rfl

/-- Claim C3: on a well-formed method-group listing with fewer than 10
pages, process_method_image returns exactly one page entry per listing
page (each entry being what the page's link harvest produced), and the
loop stops through the absent/non-clickable next-control path, not the
10-page ceiling. -/
theorem harvest_count_under_ten (site : DynSite) (pages : List ListingPage)
    (hwf : wellFormedListing site pages)
    (hpos : 0 < pages.length) (hlt : pages.length < 10) :
    (process_method_image site pages).results.length = pages.length ∧
    (process_method_image site pages).term = TermKind.noNext ∧
    ∀ j < pages.length,
      (process_method_image site pages).results.getD j ([], []) =
      (process_black_links site ((pages.getD j default).links)).1 := by
  have h := harvest_loop_noNext site pages hwf 10 0 (by omega) (by omega)
  have hlen : (process_method_image site pages).results.length = pages.length := by
    have := h.1
    simpa [process_method_image] using this
  refine ⟨hlen, by simpa [process_method_image] using h.2.1, ?_⟩
  intro j hj
  exact process_method_image_entry site pages j (by omega)

/-- Witness for claim C3 at a concrete three-page listing. -/
theorem harvest_count_under_ten_w :
    (process_method_image exDynSite exPages3).results.length = exPages3.length ∧
    (process_method_image exDynSite exPages3).term = TermKind.noNext := by
  have h := harvest_count_under_ten exDynSite exPages3 (by decide) (by decide) (by decide)
  exact ⟨h.1, h.2.1⟩

/-- Claim C4 counterexample: a well-formed listing with 11 real pages.  The
harvester does return exactly 10 page entries, but it performs 10
next-clicks: the click after harvesting the 10th page navigates onto the
11th listing page (an 11th page navigation counting the initial load),
because the loop clicks before the page counter is re-checked.  This
refutes the claim that no navigation beyond the 10th harvested page is
attempted. -/
theorem harvest_cap_cex :
    exPages11.length = 11 ∧
    wellFormedListing exDynSite exPages11 ∧
    (process_method_image exDynSite exPages11).results.length = 10 ∧
    (process_method_image exDynSite exPages11).clicks = 10 ∧
    (process_method_image exDynSite exPages11).term = TermKind.ceiling := by
  refine ⟨by decide, by decide, by decide, by decide, by decide⟩

/-- Claim C4 as amended: on every well-formed listing with 10 or more real
pages the harvester returns exactly 10 page entries, and it performs
min(pages - 1, 10) next-clicks: 9 when there are exactly 10 pages (stopping
at the absent next control), but 10 when an 11th page exists, i.e. one
navigation beyond the 10th harvested page before the ceiling stops the
loop. -/
theorem harvest_cap_amended (site : DynSite) (pages : List ListingPage)
    (hwf : wellFormedListing site pages) (h10 : 10 ≤ pages.length) :
    (process_method_image site pages).results.length = 10 ∧
    (process_method_image site pages).clicks = min (pages.length - 1) 10 := by
  by_cases h : pages.length = 10
  · have hh := harvest_loop_noNext site pages hwf 10 0 (by omega) (by omega)
    refine ⟨?_, ?_⟩
    · have := hh.1
      simp only [process_method_image]
      omega
    · have := hh.2.2
      simp only [process_method_image]
      omega
  · have hh := harvest_loop_ceiling site pages hwf 10 0 (by omega)
    refine ⟨?_, ?_⟩
    · have := hh.1
      simpa [process_method_image] using this
    · have := hh.2.2
      simp only [process_method_image]
      omega

/-- Witness for the amended claim C4 at the eleven-page listing. -/
theorem harvest_cap_amended_w :
    (process_method_image exDynSite exPages11).results.length = 10 :=
  (harvest_cap_amended exDynSite exPages11 (by decide) (by decide)).1

/-- Claim C5: within every page entry the harvester appends, the title list
and the text list have the same length, whatever the site and listing look
like and however many extractions fail. -/
theorem page_entry_lengths_eq (site : DynSite) (pages : List ListingPage) (j : Nat) :
    ((process_method_image site pages).results.getD j ([], [])).1.length =
    ((process_method_image site pages).results.getD j ([], [])).2.length := by
  by_cases hj : j < (process_method_image site pages).results.length
  · rw [process_method_image_entry site pages j hj]
    exact process_black_links_len site _
  · rw [List.getD_eq_default _ _ (by omega)]

/-- Claim C7: a visited listing page with no paper links still contributes
its own (empty) page entry at its position in the output sequence. -/
theorem empty_page_entry_kept (site : DynSite) (pages : List ListingPage) (j : Nat)
    (hj : j < (process_method_image site pages).results.length)
    (hempty : (pages.getD j default).links = []) :
    (process_method_image site pages).results.getD j ([], []) = ([], []) := by
  rw [process_method_image_entry site pages j hj, hempty]
  rfl

/-- Witness for claim C7 at a one-page listing with no links. -/
theorem empty_page_entry_kept_w :
    (process_method_image exDynSite exPagesEmpty).results.getD 0 ([], []) = ([], []) :=
  empty_page_entry_kept exDynSite exPagesEmpty 0 (by decide) (by decide)

/-! ### Topic-crawl (process_topic_link) lemmas and claim C8 -/

/-- The link loop records every processed link, in order, after whatever the
accumulator already held. -/
theorem topicLink_fold_order (site : DynSite) :
    ∀ (links : List String) (acc : TopicLinkResult),
      (links.foldl (topicLinkStep site) acc).processedOrder =
        acc.processedOrder ++ links := by
  intro links
  induction links with
  | nil => intro acc; simp
  | cons link links ih =>
    intro acc
    simp only [List.foldl_cons, ih, topicLinkStep]
    simp

/-- Lookup after the link loop: a processed link maps to its harvest, any
other link keeps the accumulator's value. -/
theorem topicLink_fold_map (site : DynSite) :
    ∀ (links : List String) (acc : TopicLinkResult) (l : String),
      (links.foldl (topicLinkStep site) acc).resultsMap l =
        if l ∈ links
        then some (process_method_image site (site.group l)).results
        else acc.resultsMap l := by
  intro links
  induction links with
  | nil => intro acc l; simp
  | cons link links ih =>
    intro acc l
    simp only [List.foldl_cons, ih]
    by_cases hmem : l ∈ links
    · simp [hmem]
    · by_cases heq : l = link
      · subst heq
        simp [hmem, topicLinkStep]
      · simp [hmem, heq, topicLinkStep]

/-- The results dictionary of process_topic_link, described pointwise. -/
theorem process_topic_link_map (site : DynSite) (topic : TopicDyn) (l : String) :
    (process_topic_link site topic).resultsMap l =
      if l ∈ methodLinks topic
      then some (process_method_image site (site.group l)).results
      else none := by
  unfold process_topic_link
  by_cases he : topic.methodDivs = []
  · simp [he, methodLinks]
  · simp only [he, if_false]
    rw [topicLink_fold_map]

/-- Claim C8: on a topic page without method-group containers the crawler
returns the empty mapping; otherwise it considers at most the first 20
containers, skips a group whose link cannot be extracted, resolves relative
hrefs against the site origin, and returns a mapping whose keys are exactly
the extracted links, each bound to one harvester run, invoked in discovery
order. -/
theorem topic_crawl_mapping (site : DynSite) (topic : TopicDyn) :
    (topic.methodDivs = [] → ∀ l, (process_topic_link site topic).resultsMap l = none)
    ∧ (process_topic_link site topic).processedOrder = methodLinks topic
    ∧ (methodLinks topic).length ≤ 20
    ∧ (∀ l, ((process_topic_link site topic).resultsMap l).isSome = true ↔ l ∈ methodLinks topic)
    ∧ (∀ l, l ∈ methodLinks topic →
        (process_topic_link site topic).resultsMap l =
          some (process_method_image site (site.group l)).results)
    ∧ (∀ l, l ∈ methodLinks topic ↔
        ∃ d ∈ topic.methodDivs.take 20, ∃ h, d.anchorHref = some h ∧ resolveHref h = l) := by
  refine ⟨?_, ?_, ?_, ?_, ?_, ?_⟩
  · intro he l
    rw [process_topic_link_map]
    simp [methodLinks, he]
  · unfold process_topic_link
    by_cases he : topic.methodDivs = []
    · simp [he, methodLinks]
    · simp only [he, if_false]
      rw [topicLink_fold_order]
      rfl
  · calc (methodLinks topic).length
        ≤ (topic.methodDivs.take 20).length := List.length_filterMap_le _ _
      _ ≤ 20 := by simp [List.length_take]
  · intro l
    rw [process_topic_link_map]
    by_cases hmem : l ∈ methodLinks topic <;> simp [hmem]
  · intro l hmem
    rw [process_topic_link_map, if_pos hmem]
  · intro l
    unfold methodLinks
    rw [List.mem_filterMap]
    constructor
    · rintro ⟨d, hd, hf⟩
      rcases Option.map_eq_some'.mp hf with ⟨h, hh, rfl⟩
      exact ⟨d, hd, h, hh, rfl⟩
    · rintro ⟨d, hd, h, hh, rfl⟩
      exact ⟨d, hd, by rw [hh]; rfl⟩

/-- A topic page with one extractable group link and one broken container. -/
def exTopic : TopicDyn := ⟨[⟨none⟩, ⟨some "/method/m1"⟩]⟩

/-- Witness for claim C8: the resolved link of the single extractable group
is a key of the mapping, bound to its harvest (one empty page here). -/
theorem topic_crawl_mapping_w :
    (process_topic_link exDynSite exTopic).resultsMap (BASE_URL ++ "/method/m1") =
      some [([], [])] := by
  have h := (topic_crawl_mapping exDynSite exTopic).2.2.2.2.1
    (BASE_URL ++ "/method/m1") (by decide)
  rw [h]
  rfl

/-! ### Characterization of splitFirst and idempotence of pyStrip -/

/-- Soundness of splitFirst: a successful split decomposes the string at an
occurrence of the separator before which no other occurrence starts. -/
theorem splitFirst_sound (sep : List Char) (hsep : sep ≠ []) :
    ∀ s pre post, splitFirst sep s = some (pre, post) →
      s = pre ++ sep ++ post ∧ ∀ j < pre.length, ¬ sep <+: s.drop j := by
  intro s
  induction s with
  | nil =>
    intro pre post h
    have hB : ¬ (sep.isPrefixOf ([] : List Char) = true) := by
      rw [List.isPrefixOf_iff_prefix, List.prefix_nil]
      exact hsep
    simp only [splitFirst, if_neg hB] at h
    exact absurd h (by simp)
  | cons c rest ih =>
    intro pre post h
    by_cases hp : sep <+: (c :: rest)
    · have hB : sep.isPrefixOf (c :: rest) = true := List.isPrefixOf_iff_prefix.mpr hp
      simp only [splitFirst, if_pos hB, Option.some.injEq, Prod.mk.injEq] at h
      obtain ⟨rfl, rfl⟩ := h
      obtain ⟨t, ht⟩ := hp
      constructor
      · rw [← ht, List.nil_append, List.drop_left]
      · intro j hj
        simp at hj
    · have hB : ¬ (sep.isPrefixOf (c :: rest) = true) := fun hh =>
        hp (List.isPrefixOf_iff_prefix.mp hh)
      simp only [splitFirst, if_neg hB, Option.map_eq_some'] at h
      obtain ⟨⟨p, q⟩, hpq, hval⟩ := h
      obtain ⟨hrest, hfirst⟩ := ih p q hpq
      simp only [Prod.mk.injEq] at hval
      obtain ⟨rfl, rfl⟩ := hval
      constructor
      · simp [hrest]
      · intro j hj
        cases j with
        | zero => simpa using hp
        | succ j' =>
          simp only [List.drop_succ_cons]
          exact hfirst j' (by simpa using hj)

/-- Completeness of splitFirst, none case: if the separator starts nowhere
in the string, the split fails. -/
theorem splitFirst_eq_none (sep : List Char) (hsep : sep ≠ []) :
    ∀ s, (∀ j, ¬ sep <+: s.drop j) → splitFirst sep s = none := by
  intro s
  induction s with
  | nil =>
    intro _
    have hB : ¬ (sep.isPrefixOf ([] : List Char) = true) := by
      rw [List.isPrefixOf_iff_prefix, List.prefix_nil]
      exact hsep
    simp [splitFirst, hB]
  | cons c rest ih =>
    intro hno
    have hB : ¬ (sep.isPrefixOf (c :: rest) = true) := fun hh => by
      have := List.isPrefixOf_iff_prefix.mp hh
      exact hno 0 (by simpa using this)
    simp only [splitFirst, if_neg hB]
    rw [ih (fun j => by simpa using hno (j + 1))]
    rfl

/-- Completeness of splitFirst, some case: a decomposition at the first
occurrence of the separator is what the split returns. -/
theorem splitFirst_eq_some (sep : List Char) (hsep : sep ≠ []) :
    ∀ pre s post, s = pre ++ sep ++ post →
      (∀ j < pre.length, ¬ sep <+: s.drop j) →
      splitFirst sep s = some (pre, post) := by
  intro pre
  induction pre with
  | nil =>
    intro s post heq _
    simp only [List.nil_append] at heq
    subst heq
    cases sep with
    | nil => exact absurd rfl hsep
    | cons a as =>
      have hp : (a :: as) <+: ((a :: as) ++ post) := List.prefix_append _ _
      have hB : (a :: as).isPrefixOf ((a :: as) ++ post) = true :=
        List.isPrefixOf_iff_prefix.mpr hp
      simp only [List.cons_append, splitFirst]
      rw [if_pos (by simp only [List.cons_append] at hB; exact hB)]
      simp
  | cons c pre ih =>
    intro s post heq hfirst
    subst heq
    have h0 : ¬ sep <+: ((c :: pre) ++ sep ++ post) := by
      have := hfirst 0 (by simp)
      simpa using this
    have hB : ¬ (sep.isPrefixOf ((c :: pre) ++ sep ++ post) = true) := fun hh =>
      h0 (List.isPrefixOf_iff_prefix.mp hh)
    simp only [List.cons_append, List.append_assoc] at hB ⊢
    simp only [splitFirst]
    rw [if_neg (by simpa using hB)]
    rw [ih (pre ++ (sep ++ post)) post (by simp) (fun j hj => by
      have := hfirst (j + 1) (by simpa using hj)
      simpa using this)]
    rfl

/-- Dropping a satisfied prefix twice is dropping it once. -/
theorem dropWhile_dropWhile (p : Char → Bool) (l : List Char) :
    (l.dropWhile p).dropWhile p = l.dropWhile p := by
  induction l with
  | nil => rfl
  | cons c t ih =>
    by_cases h : p c
    · simp [List.dropWhile_cons, h, ih]
    · simp [List.dropWhile_cons, h]

/-- The head surviving dropWhile does not satisfy the predicate. -/
theorem head_dropWhile_false (p : Char → Bool) (l : List Char) :
    ∀ c, (l.dropWhile p).head? = some c → p c = false := by
  induction l with
  | nil => intro c h; simp at h
  | cons d t ih =>
    intro c h
    by_cases hd : p d
    · rw [List.dropWhile_cons, if_pos hd] at h
      exact ih c h
    · rw [List.dropWhile_cons, if_neg hd] at h
      simp only [List.head?_cons, Option.some.injEq] at h
      subst h
      exact Bool.eq_false_iff.mpr hd

/-- A list whose head does not satisfy the predicate is fixed by dropWhile. -/
theorem dropWhile_fixed_of_head (p : Char → Bool) (m : List Char)
    (h : ∀ c, m.head? = some c → p c = false) : m.dropWhile p = m := by
  cases m with
  | nil => rfl
  | cons c t =>
    have := h c (by simp)
    rw [List.dropWhile_cons, if_neg (by simp [this])]

/-- Trimming on the right does not change a nonempty result's head. -/
theorem head_trimRight (m : List Char) (hnil : trimRight m ≠ []) :
    (trimRight m).head? = m.head? := by
  unfold trimRight at hnil ⊢
  rw [List.head?_reverse]
  have hsuf : (m.reverse.dropWhile pyIsSpace) <:+ m.reverse := List.dropWhile_suffix _
  obtain ⟨t, ht⟩ := hsuf
  have hne : m.reverse.dropWhile pyIsSpace ≠ [] := by
    intro hh
    apply hnil
    rw [hh]
    rfl
  calc (m.reverse.dropWhile pyIsSpace).getLast?
      = (t ++ m.reverse.dropWhile pyIsSpace).getLast? :=
        (List.getLast?_append_of_ne_nil t hne).symm
    _ = m.reverse.getLast? := by rw [ht]
    _ = m.head? := by rw [List.getLast?_reverse]

/-- str.strip is idempotent. -/
theorem stripChars_idem (l : List Char) : stripChars (stripChars l) = stripChars l := by
  unfold stripChars
  have hmfix : trimLeft (trimLeft l) = trimLeft l := dropWhile_dropWhile _ _
  have h1 : trimLeft (trimRight (trimLeft l)) = trimRight (trimLeft l) := by
    by_cases hnil : trimRight (trimLeft l) = []
    · rw [hnil]; rfl
    · apply dropWhile_fixed_of_head
      intro c hc
      rw [head_trimRight _ hnil] at hc
      exact head_dropWhile_false pyIsSpace l c hc
  rw [h1]
  unfold trimRight
  rw [List.reverse_reverse, dropWhile_dropWhile]

/-- Python str.strip() is idempotent. -/
theorem pyStrip_idem (s : String) : pyStrip (pyStrip s) = pyStrip s := by
  unfold pyStrip
  rw [show (String.mk (stripChars s.data)).data = stripChars s.data from rfl,
    stripChars_idem]

/-- Indexing a stripped column list is stripping the indexed raw cell (the
out-of-range default is the empty string, which stripping fixes). -/
theorem getD_map_pyStrip (tds : List String) (i : Nat) :
    (tds.map pyStrip).getD i "" = pyStrip (tds.getD i "") := by
  rw [List.getD_eq_getElem?_getD, List.getD_eq_getElem?_getD, List.getElem?_map]
  cases tds[i]? <;> rfl

/-- Claim C6: for a method-table row with at least 3 cells, when the first
cell's trimmed text decomposes at a first occurrence of the triple-newline
separator, the MethodRow takes the trimmed text before the separator as
method and the raw remainder as paper_name; when the separator occurs
nowhere in the trimmed cell, paper_name is absent and method is the full
trimmed cell text. -/
theorem method_row_cell_split :
    (∀ (tn c0 c1 c2 : String) (rest : List String) (pre post : List Char),
       (pyStrip c0).data = pre ++ tripleNewline ++ post →
       (∀ j < pre.length, ¬ tripleNewline <+: ((pyStrip c0).data.drop j)) →
       method_row_of_tds tn (c0 :: c1 :: c2 :: rest) =
         some ⟨tn, pyStrip (String.mk pre), pyStrip c1, pyStrip c2,
               some (String.mk post)⟩)
    ∧ (∀ (tn c0 c1 c2 : String) (rest : List String),
       (∀ j < (pyStrip c0).data.length, ¬ tripleNewline <+: ((pyStrip c0).data.drop j)) →
       method_row_of_tds tn (c0 :: c1 :: c2 :: rest) =
         some ⟨tn, pyStrip c0, pyStrip c1, pyStrip c2, none⟩) := by
  constructor
  · intro tn c0 c1 c2 rest pre post heq hfirst
    have hsplit : splitFirst tripleNewline (pyStrip c0).data = some (pre, post) := by
      apply splitFirst_eq_some tripleNewline (by decide) pre _ post heq
      intro j hj
      exact hfirst j hj
    simp only [method_row_of_tds, List.map_cons, List.length_cons]
    rw [if_pos (by simp)]
    simp only [List.getD_cons_zero, List.getD_cons_succ]
    rw [hsplit]
  · intro tn c0 c1 c2 rest hfirst
    have hnone : splitFirst tripleNewline (pyStrip c0).data = none := by
      apply splitFirst_eq_none tripleNewline (by decide)
      intro j
      by_cases hj : j < (pyStrip c0).data.length
      · exact hfirst j hj
      · rw [List.drop_eq_nil_of_le (by omega)]
        intro hcon
        rw [List.prefix_nil] at hcon
        exact absurd hcon (by decide)
    simp only [method_row_of_tds, List.map_cons, List.length_cons]
    rw [if_pos (by simp)]
    simp only [List.getD_cons_zero, List.getD_cons_succ]
    rw [hnone, pyStrip_idem]

/-- Witness for claim C6: one row whose first cell holds the separator and
one without it. -/
theorem method_row_cell_split_w :
    method_row_of_tds "Topic" ["MethodA\n\n\nPaper A", " 2020 ", " 5 "] =
      some ⟨"Topic", "MethodA", "2020", "5", some "Paper A"⟩ ∧
    method_row_of_tds "Topic" [" MethodB ", "2021", "7"] =
      some ⟨"Topic", "MethodB", "2021", "7", none⟩ := by
  constructor
  · have h := method_row_cell_split.1 "Topic" "MethodA\n\n\nPaper A" " 2020 " " 5 " []
      "MethodA".data "Paper A".data (by decide) (by decide)
    rw [h]
    rfl
  · have h := method_row_cell_split.2 "Topic" " MethodB " "2021" "7" [] (by decide)
    rw [h]
    rfl

/-- The year and paper-count fields of any produced MethodRow are the
stripped second and third cells of its row. -/
theorem method_row_fields (tn : String) (tds : List String) (m : MethodRow)
    (h : method_row_of_tds tn tds = some m) :
    m.year = pyStrip (tds.getD 1 "") ∧ m.num_papers = pyStrip (tds.getD 2 "") := by
  simp only [method_row_of_tds] at h
  by_cases hlen : 3 ≤ (tds.map pyStrip).length
  · rw [if_pos hlen] at h
    rcases hsp : splitFirst tripleNewline ((tds.map pyStrip).getD 0 "").data with _ | ⟨pre, post⟩ <;>
      rw [hsp] at h
    · obtain rfl := Option.some_inj.mp h
      exact ⟨getD_map_pyStrip tds 1, getD_map_pyStrip tds 2⟩
    · obtain rfl := Option.some_inj.mp h
      exact ⟨getD_map_pyStrip tds 1, getD_map_pyStrip tds 2⟩
  · rw [if_neg hlen] at h
    exact Option.noConfusion h

/-- Claim C10: a method-table row with fewer than 3 cells contributes no
MethodRow (silently); consequently every MethodRow produced by the row loop
comes from a row with at least 3 cells, with year the stripped second cell
and num_papers the stripped third cell. -/
theorem short_row_skipped :
    (∀ (tn : String) (tds : List String), tds.length < 3 →
       method_row_of_tds tn tds = none)
    ∧ (∀ (tn : String) (rows : List (List String)) (m : MethodRow),
       m ∈ rows.filterMap (method_row_of_tds tn) →
       ∃ tds ∈ rows, method_row_of_tds tn tds = some m ∧ 3 ≤ tds.length ∧
         m.year = pyStrip (tds.getD 1 "") ∧
         m.num_papers = pyStrip (tds.getD 2 "")) := by
  have hshort : ∀ (tn : String) (tds : List String), tds.length < 3 →
      method_row_of_tds tn tds = none := by
    intro tn tds h
    simp only [method_row_of_tds]
    rw [if_neg (by simp only [List.length_map]; omega)]
  refine ⟨hshort, ?_⟩
  intro tn rows m hm
  obtain ⟨tds, htds, heq⟩ := List.mem_filterMap.mp hm
  have hlen : 3 ≤ tds.length := by
    by_contra hcon
    rw [hshort tn tds (by omega)] at heq
    exact Option.noConfusion heq
  obtain ⟨hy, hp⟩ := method_row_fields tn tds m heq
  exact ⟨tds, htds, heq, hlen, hy, hp⟩

/-- Witness for claim C10: a two-cell row is skipped. -/
theorem short_row_skipped_w :
    method_row_of_tds "Topic" ["MethodC", "2022"] = none :=
  short_row_skipped.1 "Topic" ["MethodC", "2022"] (by decide)

/-! ### Static-fetch error propagation and claim C2 -/

/-- A card whose h1 is missing makes process_card raise. -/
theorem process_card_error_of_h1 (site : StaticSite) (ml : String) (c : Card)
    (h : c.h1 = none) : process_card site ml c = .error () := by
  simp [process_card, h]

/-- The card loop raises as soon as any of its cards has no h1. -/
theorem process_cards_error (site : StaticSite) (ml : String) :
    ∀ cs : List Card, (∃ c ∈ cs, c.h1 = none) →
      process_cards site ml cs = .error () := by
  intro cs
  induction cs with
  | nil => rintro ⟨c, hc, _⟩; simp at hc
  | cons c cs ih =>
    rintro ⟨c', hc', h1'⟩
    rcases List.mem_cons.mp hc' with rfl | hmem
    · simp only [process_cards, process_card_error_of_h1 site ml c' h1']
    · simp only [process_cards]
      cases hpc : process_card site ml c with
      | error e => cases e; rfl
      | ok v =>
        rw [ih ⟨c', hmem, h1'⟩]

/-- A group holding a card with no h1 makes process_group raise. -/
theorem process_group_error (site : StaticSite) (g : TopicGroup)
    (h : ∃ c ∈ g.cardDeck.getD [], c.h1 = none) :
    process_group site g = .error () := by
  rcases hh4 : g.h4 with _ | h4Text
  · simp [process_group, hh4]
  · rcases hdeck : g.cardDeck with _ | cards
    · rw [hdeck] at h
      simp at h
    · rw [hdeck] at h
      simp only [process_group, hh4, hdeck]
      exact process_cards_error site (pyStrip h4Text) cards (by simpa using h)

/-- Claim C2 as amended: a single card whose parsing fails (here: missing
h1) raises an uncaught error that aborts the entire fetch_initial_data run:
no TopicSummary or MethodRow entries are produced for any card, and nothing
is logged by the fetch (there is no per-card exception handling). -/
theorem card_failure_aborts_fetch (site : StaticSite)
    (h : ∃ g ∈ site.groups, ∃ c ∈ g.cardDeck.getD [], c.h1 = none) :
    fetch_initial_data site = .error () := by
  unfold fetch_initial_data
  obtain ⟨g, hg, hc⟩ := h
  revert hg
  generalize site.groups = gs
  intro hg
  induction gs with
  | nil => simp at hg
  | cons g0 gs ih =>
    rcases List.mem_cons.mp hg with rfl | hmem
    · simp only [process_groups, process_group_error site g hc]
    · simp only [process_groups]
      cases hpg : process_group site g0 with
      | error e => cases e; rfl
      | ok v =>
        rw [ih hmem]

/-- A topic page whose method table has one complete row. -/
def exTopicPage : TopicPage :=
  ⟨some " A topic description. ",
   some (some ⟨some [["MethodA\n\n\nPaper A", "2020", "5"]]⟩)⟩

/-- A complete topic card. -/
def exGoodCard : Card :=
  ⟨some " Topic One ", some "/topic/t1",
   [⟨some " 3 methods", "ignored"⟩, ⟨none, " 10 papers "⟩]⟩

/-- A card whose h1 is missing: parsing it raises AttributeError. -/
def exBadCard : Card :=
  ⟨none, some "/topic/t0", [⟨some " 1 ", "x"⟩, ⟨none, " 2 "⟩]⟩

/-- Catalog with one malformed card next to one well-formed card. -/
def exStaticSiteBad : StaticSite :=
  ⟨[⟨some " Computer Vision ", some [exBadCard, exGoodCard]⟩], fun _ => exTopicPage⟩

/-- The same catalog with only the well-formed card. -/
def exStaticSiteGood : StaticSite :=
  ⟨[⟨some " Computer Vision ", some [exGoodCard]⟩], fun _ => exTopicPage⟩

/-- Claim C2 counterexample: with the malformed card present the whole
fetch aborts with an uncaught error, producing no entries at all, although
the very same well-formed card parses fine on its own (second conjunct).
This refutes the claim that the fetch logs the issue and still produces the
entries of the other cards. -/
theorem card_failure_aborts_fetch_cex :
    fetch_initial_data exStaticSiteBad = .error () ∧
    fetch_initial_data exStaticSiteGood =
      .ok ([⟨"Topic One", "Computer Vision", "3", "10",
             "https://paperswithcode.com/topic/t1"⟩],
           [⟨"Topic One", "MethodA", "2020", "5", some "Paper A"⟩]) := by
  constructor
  · rfl
  · rfl

/-- Witness for the amended claim C2 at the concrete malformed catalog. -/
theorem card_failure_aborts_fetch_w :
    fetch_initial_data exStaticSiteBad = .error () :=
  card_failure_aborts_fetch exStaticSiteBad (by decide)

/-! ### The persisted JSON document (save_results / json.dump, json.load)

The scraper's final document only ever holds objects, arrays, strings and
null (the count fields are strings and paper_name may be None), so the
collaborators are modelled on that fragment of JSON.  jemit mirrors
json.dump(data, f, ensure_ascii=False, indent=4): strings escape the quote,
the backslash and control characters (short escapes for the five standard
ones, lowercase u-escapes otherwise), everything else is written raw;
containers are written multi-line with 4-space indentation and ", " after
keys.  jparse mirrors json.load on that fragment: whitespace between
tokens, escape decoding, and last-wins duplicate-key collapsing as a Python
dict does. -/

/-- A JSON value of the fragment the scraper writes. -/
inductive JVal where
  | jnull : JVal
  | jstr : List Char → JVal
  | jarr : List JVal → JVal
  | jobj : List (List Char × JVal) → JVal

/-- The opening brace character. -/
def lbrace : Char := Char.ofNat 123

/-- The closing brace character. -/
def rbrace : Char := Char.ofNat 125

/-- Lowercase hexadecimal digit. -/
def hexDig (n : Nat) : Char :=
  if n < 10 then Char.ofNat (48 + n) else Char.ofNat (87 + n)

/-- How json.dump with ensure_ascii=False writes one character inside a
string literal. -/
def escapeChar (c : Char) : List Char :=
  if c = '"' then ['\\', '"']
  else if c = '\\' then ['\\', '\\']
  else if c = '\n' then ['\\', 'n']
  else if c = '\t' then ['\\', 't']
  else if c = '\r' then ['\\', 'r']
  else if c = Char.ofNat 8 then ['\\', 'b']
  else if c = Char.ofNat 12 then ['\\', 'f']
  else if c.toNat < 32 then
    ['\\', 'u', '0', '0', hexDig (c.toNat / 16), hexDig (c.toNat % 16)]
  else [c]

/-- Escape a whole string body. -/
def escapeList : List Char → List Char
  | [] => []
  | c :: cs => escapeChar c ++ escapeList cs

/-- Indentation: n spaces. -/
def indentSp (n : Nat) : List Char := List.replicate n ' '

mutual

/-- json.dump of one value at an indentation level. -/
def jemit : JVal → Nat → List Char
  | .jnull, _ => ['n', 'u', 'l', 'l']
  | .jstr s, _ => '"' :: (escapeList s ++ ['"'])
  | .jarr [], _ => ['[', ']']
  | .jarr (e :: es), lvl =>
      '[' :: '\n' :: (indentSp (lvl + 4) ++
        (jemit e (lvl + 4) ++ (emitArrRest es (lvl + 4) ++
          ('\n' :: (indentSp lvl ++ [']'])))))
  | .jobj [], _ => [lbrace, rbrace]
  | .jobj (m :: ms), lvl =>
      lbrace :: '\n' :: (indentSp (lvl + 4) ++
        (emitMember m (lvl + 4) ++ (emitObjRest ms (lvl + 4) ++
          ('\n' :: (indentSp lvl ++ [rbrace])))))

/-- json.dump of one key/value member. -/
def emitMember : (List Char × JVal) → Nat → List Char
  | (k, v), lvl => '"' :: (escapeList k ++ ('"' :: ':' :: ' ' :: jemit v lvl))

/-- json.dump of the remaining array elements, each after a comma. -/
def emitArrRest : List JVal → Nat → List Char
  | [], _ => []
  | e :: es, lvl => ',' :: '\n' :: (indentSp lvl ++ (jemit e lvl ++ emitArrRest es lvl))

/-- json.dump of the remaining object members, each after a comma. -/
def emitObjRest : List (List Char × JVal) → Nat → List Char
  | [], _ => []
  | m :: ms, lvl => ',' :: '\n' :: (indentSp lvl ++ (emitMember m lvl ++ emitObjRest ms lvl))

end

/-- JSON whitespace accepted between tokens. -/
def isWsChar (c : Char) : Bool := c = ' ' || c = '\n' || c = '\t' || c = '\r'

/-- Skip whitespace between tokens. -/
def skipWs : List Char → List Char
  | [] => []
  | c :: r => if isWsChar c then skipWs r else c :: r

/-- Decode a short escape character. -/
def unescapeChar (c : Char) : Option Char :=
  if c = '"' then some '"'
  else if c = '\\' then some '\\'
  else if c = '/' then some '/'
  else if c = 'n' then some '\n'
  else if c = 't' then some '\t'
  else if c = 'r' then some '\r'
  else if c = 'b' then some (Char.ofNat 8)
  else if c = 'f' then some (Char.ofNat 12)
  else none

/-- Value of a hexadecimal digit. -/
def hexVal (c : Char) : Option Nat :=
  if '0' ≤ c ∧ c ≤ '9' then some (c.toNat - 48)
  else if 'a' ≤ c ∧ c ≤ 'f' then some (c.toNat - 87)
  else if 'A' ≤ c ∧ c ≤ 'F' then some (c.toNat - 55)
  else none

/-- Read a string body up to the closing quote, decoding escapes. -/
def parseStringBody : List Char → Option (List Char × List Char)
  | [] => none
  | c :: r =>
    if c = '"' then some ([], r)
    else if c = '\\' then
      match r with
      | [] => none
      | e :: r2 =>
        if e = 'u' then
          match r2 with
          | a :: b :: c3 :: d :: r3 =>
            match hexVal a, hexVal b, hexVal c3, hexVal d with
            | some x1, some x2, some x3, some x4 =>
              match parseStringBody r3 with
              | some (cs, r4) =>
                some (Char.ofNat (4096 * x1 + 256 * x2 + 16 * x3 + x4) :: cs, r4)
              | none => none
            | _, _, _, _ => none
          | _ => none
        else
          match unescapeChar e with
          | some u =>
            match parseStringBody r2 with
            | some (cs, r3) => some (u :: cs, r3)
            | none => none
          | none => none
    else
      match parseStringBody r with
      | some (cs, r2) => some (c :: cs, r2)
      | none => none
termination_by s => s.length

/-- Python-dict collapsing of an ordered member list: keys in order of
first occurrence, each bound to its last value. -/
def pyDict : List (List Char × JVal) → List (List Char × JVal)
  | [] => []
  | (k, v) :: rest =>
    (k, (rest.filter (fun p => p.1 = k)).foldl (fun _ p => p.2) v) ::
      pyDict (rest.filter (fun p => ¬ p.1 = k))
termination_by ms => ms.length
decreasing_by
  simp only [List.length_cons]
  exact Nat.lt_succ_of_le (List.length_filter_le _ _)

mutual

/-- json.load of one value (fuel-indexed recursive descent). -/
def jparseVal : Nat → List Char → Option (JVal × List Char)
  | 0, _ => none
  | f + 1, s =>
    match skipWs s with
    | [] => none
    | c :: r =>
      if c = 'n' then
        match r with
        | 'u' :: 'l' :: 'l' :: r2 => some (.jnull, r2)
        | _ => none
      else if c = '"' then
        match parseStringBody r with
        | some (cs, r2) => some (.jstr cs, r2)
        | none => none
      else if c = '[' then
        match skipWs r with
        | [] => none
        | c2 :: r2 =>
          if c2 = ']' then some (.jarr [], r2)
          else
            match jparseVal f (skipWs r) with
            | some (v, r3) =>
              match jparseArrRest f r3 with
              | some (vs, r4) => some (.jarr (v :: vs), r4)
              | none => none
            | none => none
      else if c = lbrace then
        match skipWs r with
        | [] => none
        | c2 :: r2 =>
          if c2 = rbrace then some (.jobj [], r2)
          else
            match jparseMember f (skipWs r) with
            | some (kv, r3) =>
              match jparseObjRest f r3 with
              | some (ms, r4) => some (.jobj (pyDict (kv :: ms)), r4)
              | none => none
            | none => none
      else none

/-- json.load of the array elements after the first. -/
def jparseArrRest : Nat → List Char → Option (List JVal × List Char)
  | 0, _ => none
  | f + 1, s =>
    match skipWs s with
    | [] => none
    | c :: r =>
      if c = ',' then
        match jparseVal f r with
        | some (v, r2) =>
          match jparseArrRest f r2 with
          | some (vs, r3) => some (v :: vs, r3)
          | none => none
        | none => none
      else if c = ']' then some ([], r)
      else none

/-- json.load of one quoted key, its colon and its value. -/
def jparseMember : Nat → List Char → Option ((List Char × JVal) × List Char)
  | 0, _ => none
  | f + 1, s =>
    match skipWs s with
    | [] => none
    | c :: r =>
      if c = '"' then
        match parseStringBody r with
        | some (k, r2) =>
          match skipWs r2 with
          | [] => none
          | c2 :: r3 =>
            if c2 = ':' then
              match jparseVal f r3 with
              | some (v, r4) => some ((k, v), r4)
              | none => none
            else none
        | none => none
      else none

/-- json.load of the object members after the first. -/
def jparseObjRest : Nat → List Char → Option (List (List Char × JVal) × List Char)
  | 0, _ => none
  | f + 1, s =>
    match skipWs s with
    | [] => none
    | c :: r =>
      if c = ',' then
        match jparseMember f r with
        | some (kv, r2) =>
          match jparseObjRest f r2 with
          | some (ms, r3) => some (kv :: ms, r3)
          | none => none
        | none => none
      else if c = rbrace then some ([], r)
      else none

end

/-- json.load of a whole document: one value, then only whitespace. -/
def jparse (s : List Char) : Option JVal :=
  match jparseVal (s.length + 1) s with
  | some (v, r) => if skipWs r = [] then some v else none
  | none => none

/-- No list of keys repeats. -/
def keysNodupB : List (List Char) → Bool
  | [] => true
  | k :: ks => (ks.all fun x => decide (¬ x = k)) && keysNodupB ks

mutual

/-- Every object inside the value has pairwise distinct keys (true of every
document the scraper builds, whose objects come from Python dicts). -/
def dupFreeJ : JVal → Bool
  | .jnull => true
  | .jstr _ => true
  | .jarr es => dupFreeList es
  | .jobj ms => keysNodupB (ms.map Prod.fst) && dupFreeMems ms

/-- dupFreeJ over array elements. -/
def dupFreeList : List JVal → Bool
  | [] => true
  | e :: es => dupFreeJ e && dupFreeList es

/-- dupFreeJ over member values. -/
def dupFreeMems : List (List Char × JVal) → Bool
  | [] => true
  | m :: ms => dupFreeJ m.2 && dupFreeMems ms

end

/-! ### Round-trip of the persisted document -/

/-- Collapsing changes nothing when no key repeats. -/
theorem pyDict_of_nodup :
    ∀ ms : List (List Char × JVal), keysNodupB (ms.map Prod.fst) = true →
      pyDict ms = ms := by
  intro ms
  induction ms with
  | nil => intro _; simp [pyDict]
  | cons m rest ih =>
    rcases m with ⟨k, v⟩
    intro h
    simp only [List.map_cons, keysNodupB, Bool.and_eq_true, List.all_eq_true] at h
    obtain ⟨hall, hrest⟩ := h
    have hne : ∀ p ∈ rest, ¬ p.1 = k := by
      intro p hp
      have := hall p.1 (List.mem_map_of_mem Prod.fst hp)
      simpa using this
    have hfilter1 : rest.filter (fun p => p.1 = k) = [] := by
      rw [List.filter_eq_nil_iff]
      intro p hp
      simpa using hne p hp
    have hfilter2 : rest.filter (fun p => ¬ p.1 = k) = rest := by
      rw [List.filter_eq_self]
      intro p hp
      simpa using hne p hp
    simp only [pyDict, hfilter1, hfilter2, List.foldl_nil]
    rw [ih hrest]

/-- Spaces are JSON whitespace. -/
theorem isWs_indent (n : Nat) : ∀ c ∈ indentSp n, isWsChar c = true := by
  intro c hc
  simp only [indentSp, List.mem_replicate] at hc
  rw [hc.2]
  rfl

/-- skipWs swallows a whitespace-only prefix. -/
theorem skipWs_append_ws :
    ∀ ws : List Char, (∀ c ∈ ws, isWsChar c = true) →
      ∀ x, skipWs (ws ++ x) = skipWs x := by
  intro ws
  induction ws with
  | nil => intro _ x; rfl
  | cons c t ih =>
    intro h x
    have hc : isWsChar c = true := h c (by simp)
    simp only [List.cons_append, skipWs, hc, if_true]
    exact ih (fun d hd => h d (by simp [hd])) x

/-- skipWs swallows indentation. -/
theorem skipWs_indent_append (n : Nat) (x : List Char) :
    skipWs (indentSp n ++ x) = skipWs x :=
  skipWs_append_ws (indentSp n) (isWs_indent n) x

/-- skipWs swallows a newline. -/
theorem skipWs_nl (x : List Char) : skipWs ('\n' :: x) = skipWs x := by
  simp [skipWs, isWsChar]

/-- The first character every emitted value starts with. -/
def jheadChar : JVal → Char
  | .jnull => 'n'
  | .jstr _ => '"'
  | .jarr _ => '['
  | .jobj _ => lbrace

/-- The characters after the first of an emitted value. -/
def jemitTail (v : JVal) (lvl : Nat) : List Char := (jemit v lvl).drop 1

/-- Every emitted value is its head character followed by its tail. -/
theorem jemit_eq_cons (v : JVal) (lvl : Nat) :
    jemit v lvl = jheadChar v :: jemitTail v lvl := by
  cases v with
  | jnull => rfl
  | jstr s => rfl
  | jarr es => cases es <;> rfl
  | jobj ms => cases ms <;> rfl

/-- The head of an emitted value is never whitespace. -/
theorem jheadChar_not_ws (v : JVal) : isWsChar (jheadChar v) = false := by
  cases v <;> rfl

/-- The head of an emitted value is not a closing bracket or brace. -/
theorem jheadChar_ne (v : JVal) : jheadChar v ≠ ']' ∧ jheadChar v ≠ rbrace := by
  cases v with
  | jnull => exact ⟨(by decide : 'n' ≠ ']'), (by decide : 'n' ≠ rbrace)⟩
  | jstr s => exact ⟨(by decide : '"' ≠ ']'), (by decide : '"' ≠ rbrace)⟩
  | jarr es => exact ⟨(by decide : '[' ≠ ']'), (by decide : '[' ≠ rbrace)⟩
  | jobj ms => exact ⟨(by decide : lbrace ≠ ']'), (by decide : lbrace ≠ rbrace)⟩

/-- skipWs keeps an emitted value intact. -/
theorem skipWs_emit (v : JVal) (lvl : Nat) (r : List Char) :
    skipWs (jemit v lvl ++ r) = jemit v lvl ++ r := by
  rw [jemit_eq_cons, List.cons_append]
  simp only [skipWs, jheadChar_not_ws, Bool.false_eq_true, if_false]

/-- Reading back an emitted hexadecimal digit. -/
theorem hexVal_hexDig : ∀ m, m < 16 → hexVal (hexDig m) = some m := by decide

/-- Step equation of parseStringBody: closing quote. -/
theorem psb_quote (r : List Char) : parseStringBody ('"' :: r) = some ([], r) := by
  rw [parseStringBody.eq_def]
  rfl

/-- Step equation of parseStringBody: short escape. -/
theorem psb_escaped (e u : Char) (hu : unescapeChar e = some u) (he : e ≠ 'u')
    (r : List Char) :
    parseStringBody ('\\' :: e :: r) =
      match parseStringBody r with
      | some (cs, r2) => some (u :: cs, r2)
      | none => none := by
  rw [parseStringBody.eq_def]
  simp [he, hu]

/-- Step equation of parseStringBody: unicode escape. -/
theorem psb_u (a b c3 d : Char) (x1 x2 x3 x4 : Nat)
    (h1 : hexVal a = some x1) (h2 : hexVal b = some x2)
    (h3 : hexVal c3 = some x3) (h4 : hexVal d = some x4) (r : List Char) :
    parseStringBody ('\\' :: 'u' :: a :: b :: c3 :: d :: r) =
      match parseStringBody r with
      | some (cs, r2) =>
        some (Char.ofNat (4096 * x1 + 256 * x2 + 16 * x3 + x4) :: cs, r2)
      | none => none := by
  rw [parseStringBody.eq_def]
  simp [h1, h2, h3, h4]

/-- Step equation of parseStringBody: ordinary character. -/
theorem psb_plain (c : Char) (h1 : c ≠ '"') (h2 : c ≠ '\\') (r : List Char) :
    parseStringBody (c :: r) =
      match parseStringBody r with
      | some (cs, r2) => some (c :: cs, r2)
      | none => none := by
  rw [parseStringBody.eq_def]
  simp [h1, h2]

/-- Reading back one escaped string body up to its closing quote. -/
theorem parseStringBody_escape :
    ∀ s rest, parseStringBody (escapeList s ++ ('"' :: rest)) = some (s, rest) := by
  intro s
  induction s with
  | nil =>
    intro rest
    simp only [escapeList, List.nil_append]
    exact psb_quote rest
  | cons c cs ih =>
    intro rest
    simp only [escapeList, List.append_assoc]
    by_cases h1 : c = '"'
    · subst h1
      rw [(by rfl : escapeChar '"' = ['\\', '"']), List.cons_append, List.cons_append,
        List.nil_append, psb_escaped '"' '"' (by decide) (by decide), ih]
    · by_cases h2 : c = '\\'
      · subst h2
        rw [(by rfl : escapeChar '\\' = ['\\', '\\']), List.cons_append, List.cons_append,
          List.nil_append, psb_escaped '\\' '\\' (by decide) (by decide), ih]
      · by_cases h3 : c = '\n'
        · subst h3
          rw [(by rfl : escapeChar '\n' = ['\\', 'n']), List.cons_append, List.cons_append,
            List.nil_append, psb_escaped 'n' '\n' (by decide) (by decide), ih]
        · by_cases h4 : c = '\t'
          · subst h4
            rw [(by rfl : escapeChar '\t' = ['\\', 't']), List.cons_append, List.cons_append,
              List.nil_append, psb_escaped 't' '\t' (by decide) (by decide), ih]
          · by_cases h5 : c = '\r'
            · subst h5
              rw [(by rfl : escapeChar '\r' = ['\\', 'r']), List.cons_append,
                List.cons_append, List.nil_append,
                psb_escaped 'r' '\r' (by decide) (by decide), ih]
            · by_cases h6 : c = Char.ofNat 8
              · subst h6
                rw [(by rfl : escapeChar (Char.ofNat 8) = ['\\', 'b']), List.cons_append,
                  List.cons_append, List.nil_append,
                  psb_escaped 'b' (Char.ofNat 8) (by decide) (by decide), ih]
              · by_cases h7 : c = Char.ofNat 12
                · subst h7
                  rw [(by rfl : escapeChar (Char.ofNat 12) = ['\\', 'f']), List.cons_append,
                    List.cons_append, List.nil_append,
                    psb_escaped 'f' (Char.ofNat 12) (by decide) (by decide), ih]
                · by_cases h8 : c.toNat < 32
                  · simp only [escapeChar, if_neg h1, if_neg h2, if_neg h3, if_neg h4,
                      if_neg h5, if_neg h6, if_neg h7, if_pos h8, List.cons_append,
                      List.nil_append]
                    rw [psb_u '0' '0' (hexDig (c.toNat / 16)) (hexDig (c.toNat % 16))
                      0 0 (c.toNat / 16) (c.toNat % 16) (by decide) (by decide)
                      (hexVal_hexDig _ (by omega)) (hexVal_hexDig _ (by omega)), ih]
                    simp only [Nat.mul_zero, Nat.zero_add]
                    rw [Nat.div_add_mod, Char.ofNat_toNat]
                  · simp only [escapeChar, if_neg h1, if_neg h2, if_neg h3, if_neg h4,
                      if_neg h5, if_neg h6, if_neg h7, if_neg h8, List.cons_append,
                      List.nil_append]
                    rw [psb_plain c h1 h2, ih]

/-- skipWs keeps a non-whitespace head. -/
theorem skipWs_not_ws (c : Char) (r : List Char) (h : isWsChar c = false) :
    skipWs (c :: r) = c :: r := by
  simp only [skipWs, h, Bool.false_eq_true, if_false]

/-- The body of jparseVal at positive fuel, as a plain definition. -/
def jparseValBody (f : Nat) (s : List Char) : Option (JVal × List Char) :=
  match skipWs s with
  | [] => none
  | c :: r =>
    if c = 'n' then
      match r with
      | 'u' :: 'l' :: 'l' :: r2 => some (.jnull, r2)
      | _ => none
    else if c = '"' then
      match parseStringBody r with
      | some (cs, r2) => some (.jstr cs, r2)
      | none => none
    else if c = '[' then
      match skipWs r with
      | [] => none
      | c2 :: r2 =>
        if c2 = ']' then some (.jarr [], r2)
        else
          match jparseVal f (skipWs r) with
          | some (v, r3) =>
            match jparseArrRest f r3 with
            | some (vs, r4) => some (.jarr (v :: vs), r4)
            | none => none
          | none => none
    else if c = lbrace then
      match skipWs r with
      | [] => none
      | c2 :: r2 =>
        if c2 = rbrace then some (.jobj [], r2)
        else
          match jparseMember f (skipWs r) with
          | some (kv, r3) =>
            match jparseObjRest f r3 with
            | some (ms, r4) => some (.jobj (pyDict (kv :: ms)), r4)
            | none => none
          | none => none
    else none

/-- The body of jparseArrRest at positive fuel, as a plain definition. -/
def jparseArrRestBody (f : Nat) (s : List Char) :
    Option (List JVal × List Char) :=
  match skipWs s with
  | [] => none
  | c :: r =>
    if c = ',' then
      match jparseVal f r with
      | some (v, r2) =>
        match jparseArrRest f r2 with
        | some (vs, r3) => some (v :: vs, r3)
        | none => none
      | none => none
    else if c = ']' then some ([], r)
    else none

/-- The body of jparseMember at positive fuel, as a plain definition. -/
def jparseMemberBody (f : Nat) (s : List Char) :
    Option ((List Char × JVal) × List Char) :=
  match skipWs s with
  | [] => none
  | c :: r =>
    if c = '"' then
      match parseStringBody r with
      | some (k, r2) =>
        (match skipWs r2 with
         | [] => none
         | c2 :: r3 =>
           if c2 = ':' then
             match jparseVal f r3 with
             | some (v, r4) => some ((k, v), r4)
             | none => none
           else none)
      | none => none
    else none

/-- The body of jparseObjRest at positive fuel, as a plain definition. -/
def jparseObjRestBody (f : Nat) (s : List Char) :
    Option (List (List Char × JVal) × List Char) :=
  match skipWs s with
  | [] => none
  | c :: r =>
    if c = ',' then
      match jparseMember f r with
      | some (kv, r2) =>
        match jparseObjRest f r2 with
        | some (ms, r3) => some (kv :: ms, r3)
        | none => none
      | none => none
    else if c = rbrace then some ([], r)
    else none

/-- jparseVal at positive fuel runs its body. -/
theorem jpv_succ (f : Nat) (s : List Char) :
    jparseVal (f + 1) s = jparseValBody f s := by
  rw [jparseVal.eq_def]
  rfl

/-- jparseArrRest at positive fuel runs its body. -/
theorem jpar_succ (f : Nat) (s : List Char) :
    jparseArrRest (f + 1) s = jparseArrRestBody f s := by
  rw [jparseArrRest.eq_def]
  rfl

/-- jparseMember at positive fuel runs its body. -/
theorem jpm_succ (f : Nat) (s : List Char) :
    jparseMember (f + 1) s = jparseMemberBody f s := by
  rw [jparseMember.eq_def]
  rfl

/-- jparseObjRest at positive fuel runs its body. -/
theorem jpor_succ (f : Nat) (s : List Char) :
    jparseObjRest (f + 1) s = jparseObjRestBody f s := by
  rw [jparseObjRest.eq_def]
  rfl

/-- The parser body ignores a whitespace-only prefix. -/
theorem jpvBody_ws (f : Nat) (pre s : List Char)
    (hpre : ∀ c ∈ pre, isWsChar c = true) :
    jparseValBody f (pre ++ s) = jparseValBody f s := by
  simp only [jparseValBody]
  rw [skipWs_append_ws pre hpre]

/-- An emitted member starts with its quoted key. -/
theorem emitMember_cons (k : List Char) (v : JVal) (lvl : Nat) :
    emitMember (k, v) lvl = '"' :: (escapeList k ++ ('"' :: ':' :: ' ' :: jemit v lvl)) :=
  rfl

/-- Parser-body step: the null literal. -/
theorem jpvBody_null (f : Nat) (r2 : List Char) :
    jparseValBody f ('n' :: 'u' :: 'l' :: 'l' :: r2) = some (.jnull, r2) := rfl

/-- Parser-body step: a string. -/
theorem jpvBody_str_go (f : Nat) (s k r2 : List Char)
    (hps : parseStringBody s = some (k, r2)) :
    jparseValBody f ('"' :: s) = some (.jstr k, r2) := by
  show
    (match parseStringBody s with
     | some (cs, r2) => some (JVal.jstr cs, r2)
     | none => none) = _
  rw [hps]

/-- Parser-body step: the empty array. -/
theorem jpvBody_arr_nil (f : Nat) (r rest : List Char)
    (hskip : skipWs r = ']' :: rest) :
    jparseValBody f ('[' :: r) = some (.jarr [], rest) := by
  show
    (match skipWs r with
     | [] => none
     | c2 :: r2 =>
       if c2 = ']' then some (JVal.jarr [], r2)
       else
         match jparseVal f (skipWs r) with
         | some (v, r3) =>
           match jparseArrRest f r3 with
           | some (vs, r4) => some (JVal.jarr (v :: vs), r4)
           | none => none
         | none => none) = _
  rw [hskip]
  simp

/-- Parser-body step: a populated array. -/
theorem jpvBody_arr_go (f : Nat) (r : List Char) (hd : Char) (tl : List Char)
    (hskip : skipWs r = hd :: tl) (hne : hd ≠ ']')
    (v : JVal) (r3 : List Char) (vs : List JVal) (rest : List Char)
    (hv : jparseVal f (hd :: tl) = some (v, r3))
    (hvs : jparseArrRest f r3 = some (vs, rest)) :
    jparseValBody f ('[' :: r) = some (.jarr (v :: vs), rest) := by
  show
    (match skipWs r with
     | [] => none
     | c2 :: r2 =>
       if c2 = ']' then some (JVal.jarr [], r2)
       else
         match jparseVal f (skipWs r) with
         | some (v, r3) =>
           match jparseArrRest f r3 with
           | some (vs, r4) => some (JVal.jarr (v :: vs), r4)
           | none => none
         | none => none) = _
  rw [hskip]
  simp only [if_neg hne]
  rw [hv]
  show
    (match jparseArrRest f r3 with
     | some (vs, r4) => some (JVal.jarr (v :: vs), r4)
     | none => none) = _
  rw [hvs]

/-- Parser-body step: the empty object. -/
theorem jpvBody_obj_nil (f : Nat) (r rest : List Char)
    (hskip : skipWs r = rbrace :: rest) :
    jparseValBody f (lbrace :: r) = some (.jobj [], rest) := by
  show
    (match skipWs r with
     | [] => none
     | c2 :: r2 =>
       if c2 = rbrace then some (JVal.jobj [], r2)
       else
         match jparseMember f (skipWs r) with
         | some (kv, r3) =>
           match jparseObjRest f r3 with
           | some (ms, r4) => some (JVal.jobj (pyDict (kv :: ms)), r4)
           | none => none
         | none => none) = _
  rw [hskip]
  simp

/-- Parser-body step: a populated object. -/
theorem jpvBody_obj_go (f : Nat) (r : List Char) (hd : Char) (tl : List Char)
    (hskip : skipWs r = hd :: tl) (hne : hd ≠ rbrace)
    (kv : List Char × JVal) (r3 : List Char)
    (ms : List (List Char × JVal)) (rest : List Char)
    (hm : jparseMember f (hd :: tl) = some (kv, r3))
    (hms : jparseObjRest f r3 = some (ms, rest)) :
    jparseValBody f (lbrace :: r) = some (.jobj (pyDict (kv :: ms)), rest) := by
  show
    (match skipWs r with
     | [] => none
     | c2 :: r2 =>
       if c2 = rbrace then some (JVal.jobj [], r2)
       else
         match jparseMember f (skipWs r) with
         | some (kv, r3) =>
           match jparseObjRest f r3 with
           | some (ms, r4) => some (JVal.jobj (pyDict (kv :: ms)), r4)
           | none => none
         | none => none) = _
  rw [hskip]
  simp only [if_neg hne]
  rw [hm]
  show
    (match jparseObjRest f r3 with
     | some (ms, r4) => some (JVal.jobj (pyDict (kv :: ms)), r4)
     | none => none) = _
  rw [hms]

/-- Array-rest body: closing bracket. -/
theorem jparBody_end (f : Nat) (s rest : List Char)
    (hskip : skipWs s = ']' :: rest) :
    jparseArrRestBody f s = some ([], rest) := by
  show
    (match skipWs s with
     | [] => none
     | c :: r =>
       if c = ',' then
         match jparseVal f r with
         | some (v, r2) =>
           match jparseArrRest f r2 with
           | some (vs, r3) => some (v :: vs, r3)
           | none => none
         | none => none
       else if c = ']' then some ([], r)
       else none) = _
  rw [hskip]
  simp

/-- Array-rest body: comma then a further element. -/
theorem jparBody_cons_go (f : Nat) (s r : List Char) (v : JVal) (r2 : List Char)
    (vs : List JVal) (rest : List Char)
    (hskip : skipWs s = ',' :: r)
    (hv : jparseVal f r = some (v, r2))
    (hvs : jparseArrRest f r2 = some (vs, rest)) :
    jparseArrRestBody f s = some (v :: vs, rest) := by
  show
    (match skipWs s with
     | [] => none
     | c :: r =>
       if c = ',' then
         match jparseVal f r with
         | some (v, r2) =>
           match jparseArrRest f r2 with
           | some (vs, r3) => some (v :: vs, r3)
           | none => none
         | none => none
       else if c = ']' then some ([], r)
       else none) = _
  rw [hskip]
  show
    (match jparseVal f r with
     | some (v, r2) =>
       match jparseArrRest f r2 with
       | some (vs, r3) => some (v :: vs, r3)
       | none => none
     | none => none) = _
  rw [hv]
  show
    (match jparseArrRest f r2 with
     | some (vs, r3) => some (v :: vs, r3)
     | none => none) = _
  rw [hvs]

/-- Member body: quoted key, colon, value. -/
theorem jpmBody_go (f : Nat) (s k r2 r3 : List Char) (v : JVal) (r4 : List Char)
    (hps : parseStringBody s = some (k, r2))
    (hskip : skipWs r2 = ':' :: r3)
    (hv : jparseVal f r3 = some (v, r4)) :
    jparseMemberBody f ('"' :: s) = some ((k, v), r4) := by
  show
    (match parseStringBody s with
     | some (k, r2) =>
       (match skipWs r2 with
        | [] => none
        | c2 :: r3 =>
          if c2 = ':' then
            match jparseVal f r3 with
            | some (v, r4) => some ((k, v), r4)
            | none => none
          else none)
     | none => none) = _
  rw [hps]
  show
    (match skipWs r2 with
     | [] => none
     | c2 :: r3 =>
       if c2 = ':' then
         match jparseVal f r3 with
         | some (v, r4) => some ((k, v), r4)
         | none => none
       else none) = _
  rw [hskip]
  show
    (match jparseVal f r3 with
     | some (v, r4) => some ((k, v), r4)
     | none => none) = _
  rw [hv]

/-- Object-rest body: closing brace. -/
theorem jporBody_end (f : Nat) (s rest : List Char)
    (hskip : skipWs s = rbrace :: rest) :
    jparseObjRestBody f s = some ([], rest) := by
  show
    (match skipWs s with
     | [] => none
     | c :: r =>
       if c = ',' then
         match jparseMember f r with
         | some (kv, r2) =>
           match jparseObjRest f r2 with
           | some (ms, r3) => some (kv :: ms, r3)
           | none => none
         | none => none
       else if c = rbrace then some ([], r)
       else none) = _
  rw [hskip]
  simp [(by decide : ¬ (rbrace = ','))]

/-- Object-rest body: comma then a further member. -/
theorem jporBody_cons_go (f : Nat) (s r : List Char) (kv : List Char × JVal)
    (r2 : List Char) (ms : List (List Char × JVal)) (rest : List Char)
    (hskip : skipWs s = ',' :: r)
    (hm : jparseMember f r = some (kv, r2))
    (hms : jparseObjRest f r2 = some (ms, rest)) :
    jparseObjRestBody f s = some (kv :: ms, rest) := by
  show
    (match skipWs s with
     | [] => none
     | c :: r =>
       if c = ',' then
         match jparseMember f r with
         | some (kv, r2) =>
           match jparseObjRest f r2 with
           | some (ms, r3) => some (kv :: ms, r3)
           | none => none
         | none => none
       else if c = rbrace then some ([], r)
       else none) = _
  rw [hskip]
  show
    (match jparseMember f r with
     | some (kv, r2) =>
       match jparseObjRest f r2 with
       | some (ms, r3) => some (kv :: ms, r3)
       | none => none
     | none => none) = _
  rw [hm]
  show
    (match jparseObjRest f r2 with
     | some (ms, r3) => some (kv :: ms, r3)
     | none => none) = _
  rw [hms]

/-- The member body ignores a whitespace-only prefix. -/
theorem jpmBody_ws (f : Nat) (pre s : List Char)
    (hpre : ∀ c ∈ pre, isWsChar c = true) :
    jparseMemberBody f (pre ++ s) = jparseMemberBody f s := by
  simp only [jparseMemberBody]
  rw [skipWs_append_ws pre hpre]

/-- jparseMember ignores a whitespace-only prefix. -/
theorem jparseMember_ws (f : Nat) (pre s : List Char)
    (hpre : ∀ c ∈ pre, isWsChar c = true) :
    jparseMember f (pre ++ s) = jparseMember f s := by
  cases f with
  | zero => simp [jparseMember]
  | succ g => rw [jpm_succ, jpm_succ, jpmBody_ws g pre s hpre]

/-- Fuel-indexed round trip: a parser with enough fuel reads back every
emitted value (and element list, member, member list) whose objects are
duplicate-free, leaving exactly the trailing input. -/
theorem jparse_roundtrip_aux :
    ∀ f : Nat,
      (∀ (v : JVal) (lvl : Nat) (pre rest : List Char),
        (∀ c ∈ pre, isWsChar c = true) →
        (jemit v lvl).length < f → dupFreeJ v = true →
        jparseVal f (pre ++ (jemit v lvl ++ rest)) = some (v, rest))
      ∧ (∀ (es : List JVal) (lvl lvl2 : Nat) (rest : List Char),
        (emitArrRest es lvl).length + 2 ≤ f → dupFreeList es = true →
        jparseArrRest f
          (emitArrRest es lvl ++ ('\n' :: (indentSp lvl2 ++ (']' :: rest)))) =
          some (es, rest))
      ∧ (∀ (k : List Char) (v : JVal) (lvl : Nat) (rest : List Char),
        (emitMember (k, v) lvl).length < f → dupFreeJ v = true →
        jparseMember f (emitMember (k, v) lvl ++ rest) = some ((k, v), rest))
      ∧ (∀ (ms : List (List Char × JVal)) (lvl lvl2 : Nat) (rest : List Char),
        (emitObjRest ms lvl).length + 2 ≤ f → dupFreeMems ms = true →
        jparseObjRest f
          (emitObjRest ms lvl ++ ('\n' :: (indentSp lvl2 ++ (rbrace :: rest)))) =
          some (ms, rest)) := by
  intro f
  induction f with
  | zero =>
    refine ⟨?_, ?_, ?_, ?_⟩
    · intro v lvl pre rest _ hlen _; omega
    · intro es lvl lvl2 rest hlen _; omega
    · intro k v lvl rest hlen _; omega
    · intro ms lvl lvl2 rest hlen _; omega
  | succ f ih =>
    obtain ⟨ihP, ihQ, ihM, ihR⟩ := ih
    refine ⟨?_, ?_, ?_, ?_⟩
    · -- values
      intro v lvl pre rest hpre hlen hdf
      rw [jpv_succ, jpvBody_ws f pre _ hpre]
      cases v with
      | jnull => rfl
      | jstr s =>
        simp only [jemit, List.cons_append, List.append_assoc, List.nil_append]
        exact jpvBody_str_go f _ s rest (parseStringBody_escape s rest)
      | jarr es =>
        cases es with
        | nil => rfl
        | cons e es =>
          simp only [jemit, List.cons_append, List.append_assoc, List.nil_append]
          simp only [jemit, List.length_cons, List.length_append, indentSp,
            List.length_replicate] at hlen
          have hdf2 : (dupFreeJ e && dupFreeList es) = true := hdf
          obtain ⟨hde, hdes⟩ : dupFreeJ e = true ∧ dupFreeList es = true := by
            simpa using hdf2
          have hskip :
              skipWs ('\n' :: (indentSp (lvl + 4) ++ (jemit e (lvl + 4) ++
                (emitArrRest es (lvl + 4) ++
                  ('\n' :: (indentSp lvl ++ (']' :: rest))))))) =
              jheadChar e :: (jemitTail e (lvl + 4) ++
                (emitArrRest es (lvl + 4) ++
                  ('\n' :: (indentSp lvl ++ (']' :: rest))))) := by
            rw [skipWs_nl, skipWs_indent_append, skipWs_emit, jemit_eq_cons,
              List.cons_append]
          have hv : jparseVal f (jheadChar e :: (jemitTail e (lvl + 4) ++
              (emitArrRest es (lvl + 4) ++
                ('\n' :: (indentSp lvl ++ (']' :: rest)))))) =
              some (e, emitArrRest es (lvl + 4) ++
                ('\n' :: (indentSp lvl ++ (']' :: rest)))) := by
            have := ihP e (lvl + 4) []
              (emitArrRest es (lvl + 4) ++ ('\n' :: (indentSp lvl ++ (']' :: rest))))
              (by simp) (by omega) hde
            rw [List.nil_append, jemit_eq_cons, List.cons_append] at this
            exact this
          have hvs := ihQ es (lvl + 4) lvl rest (by omega) hdes
          exact jpvBody_arr_go f _ (jheadChar e) _ hskip (jheadChar_ne e).1 e _ es rest
            hv hvs
      | jobj ms =>
        cases ms with
        | nil => rfl
        | cons m ms =>
          rcases m with ⟨k, v0⟩
          simp only [jemit, List.cons_append, List.append_assoc, List.nil_append]
          simp only [jemit, emitMember, List.length_cons, List.length_append, indentSp,
            List.length_replicate] at hlen
          have hdf2 : (keysNodupB (((k, v0) :: ms).map Prod.fst) &&
              (dupFreeJ v0 && dupFreeMems ms)) = true := hdf
          obtain ⟨hnodup, hdv0, hdms⟩ :
              keysNodupB (((k, v0) :: ms).map Prod.fst) = true ∧
              dupFreeJ v0 = true ∧ dupFreeMems ms = true := by
            simpa [Bool.and_assoc] using hdf2
          have hskip :
              skipWs ('\n' :: (indentSp (lvl + 4) ++ (emitMember (k, v0) (lvl + 4) ++
                (emitObjRest ms (lvl + 4) ++
                  ('\n' :: (indentSp lvl ++ (rbrace :: rest))))))) =
              '"' :: ((escapeList k ++ ('"' :: ':' :: ' ' :: jemit v0 (lvl + 4))) ++
                (emitObjRest ms (lvl + 4) ++
                  ('\n' :: (indentSp lvl ++ (rbrace :: rest))))) := by
            rw [skipWs_nl, skipWs_indent_append, emitMember_cons, List.cons_append,
              skipWs_not_ws '"' _ (by decide)]
          have hm : jparseMember f ('"' :: ((escapeList k ++
              ('"' :: ':' :: ' ' :: jemit v0 (lvl + 4))) ++
              (emitObjRest ms (lvl + 4) ++
                ('\n' :: (indentSp lvl ++ (rbrace :: rest)))))) =
              some ((k, v0), emitObjRest ms (lvl + 4) ++
                ('\n' :: (indentSp lvl ++ (rbrace :: rest)))) := by
            have := ihM k v0 (lvl + 4)
              (emitObjRest ms (lvl + 4) ++ ('\n' :: (indentSp lvl ++ (rbrace :: rest))))
              (by
                simp only [emitMember, List.length_cons, List.length_append]
                omega) hdv0
            rw [emitMember_cons, List.cons_append] at this
            exact this
          have hms := ihR ms (lvl + 4) lvl rest (by omega) hdms
          have := jpvBody_obj_go f _ '"' _ hskip (by decide) (k, v0) _ ms rest hm hms
          rw [this, pyDict_of_nodup _ hnodup]
    · -- array elements after the first
      intro es lvl lvl2 rest hlen hdf
      rw [jpar_succ]
      cases es with
      | nil =>
        simp only [emitArrRest, List.nil_append]
        exact jparBody_end f _ rest (by
          rw [skipWs_nl, skipWs_indent_append]
          exact skipWs_not_ws ']' rest (by decide))
      | cons e es =>
        simp only [emitArrRest, List.cons_append, List.append_assoc]
        simp only [emitArrRest, List.length_cons, List.length_append, indentSp,
          List.length_replicate] at hlen
        have hdf2 : (dupFreeJ e && dupFreeList es) = true := hdf
        obtain ⟨hde, hdes⟩ : dupFreeJ e = true ∧ dupFreeList es = true := by
          simpa using hdf2
        have hv : jparseVal f ('\n' :: (indentSp lvl ++ (jemit e lvl ++
            (emitArrRest es lvl ++ ('\n' :: (indentSp lvl2 ++ (']' :: rest))))))) =
            some (e, emitArrRest es lvl ++
              ('\n' :: (indentSp lvl2 ++ (']' :: rest)))) := by
          have := ihP e lvl ('\n' :: indentSp lvl)
            (emitArrRest es lvl ++ ('\n' :: (indentSp lvl2 ++ (']' :: rest))))
            (by
              intro c hc
              rcases List.mem_cons.mp hc with rfl | hmem
              · rfl
              · exact isWs_indent lvl c hmem)
            (by omega) hde
          rw [List.cons_append] at this
          exact this
        have hvs := ihQ es lvl lvl2 rest (by omega) hdes
        exact jparBody_cons_go f _ _ e _ es rest
          (skipWs_not_ws ',' _ (by decide)) hv hvs
    · -- one member
      intro k v lvl rest hlen hdf
      rw [jpm_succ, emitMember_cons, List.cons_append, List.append_assoc]
      simp only [emitMember, List.length_cons, List.length_append] at hlen
      have hv : jparseVal f (' ' :: (jemit v lvl ++ rest)) = some (v, rest) := by
        have := ihP v lvl [' '] rest (by
          intro c hc
          rcases List.mem_cons.mp hc with rfl | hmem
          · rfl
          · simp at hmem) (by omega) hdf
        rw [List.singleton_append] at this
        exact this
      exact jpmBody_go f _ k (':' :: ' ' :: (jemit v lvl ++ rest))
        (' ' :: (jemit v lvl ++ rest)) v rest
        (by
          have := parseStringBody_escape k
            (':' :: ' ' :: (jemit v lvl ++ rest))
          simpa [List.cons_append] using this)
        (skipWs_not_ws ':' _ (by decide)) hv
    · -- object members after the first
      intro ms lvl lvl2 rest hlen hdf
      rw [jpor_succ]
      cases ms with
      | nil =>
        simp only [emitObjRest, List.nil_append]
        exact jporBody_end f _ rest (by
          rw [skipWs_nl, skipWs_indent_append]
          exact skipWs_not_ws rbrace rest (by decide))
      | cons m ms =>
        rcases m with ⟨k, v0⟩
        simp only [emitObjRest, List.cons_append, List.append_assoc]
        simp only [emitObjRest, emitMember, List.length_cons, List.length_append,
          indentSp, List.length_replicate] at hlen
        have hdf2 : (dupFreeJ v0 && dupFreeMems ms) = true := hdf
        obtain ⟨hdv0, hdms⟩ : dupFreeJ v0 = true ∧ dupFreeMems ms = true := by
          simpa using hdf2
        have hm : jparseMember f ('\n' :: (indentSp lvl ++ (emitMember (k, v0) lvl ++
            (emitObjRest ms lvl ++ ('\n' :: (indentSp lvl2 ++ (rbrace :: rest))))))) =
            some ((k, v0), emitObjRest ms lvl ++
              ('\n' :: (indentSp lvl2 ++ (rbrace :: rest)))) := by
          have hws : ∀ c ∈ ('\n' :: indentSp lvl), isWsChar c = true := by
            intro c hc
            rcases List.mem_cons.mp hc with rfl | hmem
            · rfl
            · exact isWs_indent lvl c hmem
          have hmm := ihM k v0 lvl
            (emitObjRest ms lvl ++ ('\n' :: (indentSp lvl2 ++ (rbrace :: rest))))
            (by
              simp only [emitMember, List.length_cons, List.length_append]
              omega) hdv0
          have hrw := jparseMember_ws f ('\n' :: indentSp lvl)
            (emitMember (k, v0) lvl ++
              (emitObjRest ms lvl ++ ('\n' :: (indentSp lvl2 ++ (rbrace :: rest))))) hws
          rw [List.cons_append] at hrw
          rw [hrw]
          exact hmm
        have hms := ihR ms lvl lvl2 rest (by omega) hdms
        exact jporBody_cons_go f _ _ (k, v0) _ ms rest
          (skipWs_not_ws ',' _ (by decide)) hm hms

/-- json.load inverts json.dump on every duplicate-free value. -/
theorem jparse_jemit (v : JVal) (h : dupFreeJ v = true) :
    jparse (jemit v 0) = some v := by
  unfold jparse
  have hP := (jparse_roundtrip_aux ((jemit v 0).length + 1)).1 v 0 [] []
    (by simp) (by omega) h
  rw [List.nil_append, List.append_nil] at hP
  rw [hP]
  rfl

/-! ### The final document and claim C9 -/

/-- A Python string as a JSON value. -/
def jstrS (s : String) : JVal := .jstr s.data

/-- The JSON object of one extracted_info entry. -/
def topicInfoJson (t : TopicInfo) : JVal :=
  .jobj [("topic_name".data, jstrS t.topic_name),
         ("ml_field".data, jstrS t.ml_field),
         ("num_methods".data, jstrS t.num_methods),
         ("num_papers".data, jstrS t.num_papers),
         ("topic_link".data, jstrS t.topic_link)]

/-- The JSON object of one methods entry (None becomes null). -/
def methodRowJson (m : MethodRow) : JVal :=
  .jobj [("topic_name".data, jstrS m.topic_name),
         ("method".data, jstrS m.method),
         ("year".data, jstrS m.year),
         ("num_papers".data, jstrS m.num_papers),
         ("paper_name".data,
          match m.paper_name with
          | none => .jnull
          | some p => jstrS p)]

/-- The JSON object of one per-page title/text dictionary. -/
def pageEntryJson (e : List String × List String) : JVal :=
  .jobj [("title".data, .jarr (e.1.map jstrS)),
         ("text".data, .jarr (e.2.map jstrS))]

/-- The JSON array of one method group's harvested pages. -/
def groupResultJson (pages : List (List String × List String)) : JVal :=
  .jarr (pages.map pageEntryJson)

/-- The JSON object of one topic's results, keyed by method link. -/
def topicResultJson
    (tr : List (String × List (List String × List String))) : JVal :=
  .jobj (tr.map (fun p => (p.1.data, groupResultJson p.2)))

/-- The JSON object of overall_results, keyed by topic link (Python dicts
keep insertion order, modelled as an association list with unique keys). -/
def detailedJson
    (d : List (String × List (String × List (List String × List String)))) : JVal :=
  .jobj (d.map (fun p => (p.1.data, topicResultJson p.2)))

/-- The JSON document main builds and save_results writes. -/
def finalJson (infos : List TopicInfo) (methods : List MethodRow)
    (detailed : List (String × List (String × List (List String × List String)))) :
    JVal :=
  .jobj [("topics_info".data, .jarr (infos.map topicInfoJson)),
         ("methods_info".data, .jarr (methods.map methodRowJson)),
         ("detailed_results".data, detailedJson detailed)]

/-- Lookup of a key in a JSON object. -/
def objLookup (v : JVal) (key : String) : Option JVal :=
  match v with
  | .jobj ms => (ms.find? (fun m => decide (m.1 = key.data))).map Prod.snd
  | _ => none

/-- Every successfully parsed card carries its counts as the first
whitespace tokens of their source texts, kept as strings. -/
theorem process_card_counts (site : StaticSite) (ml : String) (card : Card)
    (info : TopicInfo) (rows : List MethodRow)
    (h : process_card site ml card = .ok (info, rows)) :
    cardNumMethods card = some info.num_methods ∧
    cardNumPapers card = some info.num_papers := by
  rcases hh1 : card.h1 with _ | h1t
  · simp only [process_card, hh1] at h
    exact Except.noConfusion h
  · rcases hab : card.anchorHref with _ | href
    · simp only [process_card, hh1, hab] at h
      exact Except.noConfusion h
    · rcases hgt : get_topic_method_info (site.topicPage (BASE_URL ++ href))
        (pyStrip h1t) with e | pr
      · simp only [process_card, hh1, hab, hgt] at h
        exact Except.noConfusion h
      · rcases pr with ⟨desc, rows'⟩
        rcases hnm : cardNumMethods card with _ | nm
        · simp only [process_card, hh1, hab, hgt, hnm] at h
          exact Except.noConfusion h
        · rcases hnp : cardNumPapers card with _ | np
          · simp only [process_card, hh1, hab, hgt, hnm, hnp] at h
            exact Except.noConfusion h
          · simp only [process_card, hh1, hab, hgt, hnm, hnp, Except.ok.injEq,
              Prod.mk.injEq] at h
            obtain ⟨hinfo, hrows⟩ := h
            rw [← hinfo]
            exact ⟨rfl, rfl⟩

/-- Claim C9: the persisted JSON document parses back to the in-memory
document exactly (serialize-then-parse is the identity on it, given the
dictionary keys are unique, as Python dicts guarantee), and the
num_methods/num_papers fields of every topics_info entry are serialized as
JSON strings holding exactly the stored text, which fetch_initial_data
produced as the first whitespace token of the source text (split()[0]),
never coerced to integers. -/
theorem final_doc_roundtrip (site : StaticSite) (infos : List TopicInfo)
    (methods : List MethodRow)
    (detailed : List (String × List (String × List (List String × List String))))
    (_hfetch : fetch_initial_data site = .ok (infos, methods))
    (hdup : dupFreeJ (finalJson infos methods detailed) = true) :
    jparse (jemit (finalJson infos methods detailed) 0) =
      some (finalJson infos methods detailed)
    ∧ (∀ info ∈ infos,
        objLookup (topicInfoJson info) "num_methods" =
          some (.jstr info.num_methods.data) ∧
        objLookup (topicInfoJson info) "num_papers" =
          some (.jstr info.num_papers.data))
    ∧ (∀ (ml : String) (card : Card) (info : TopicInfo) (rows : List MethodRow),
        process_card site ml card = .ok (info, rows) →
        cardNumMethods card = some info.num_methods ∧
        cardNumPapers card = some info.num_papers) := by
  refine ⟨jparse_jemit _ hdup, ?_, ?_⟩
  · intro info _
    exact ⟨rfl, rfl⟩
  · intro ml card info rows h
    exact process_card_counts site ml card info rows h

/-- Concrete final-document pieces for the witness. -/
def exInfos : List TopicInfo :=
  [⟨"Topic One", "Computer Vision", "3", "10", BASE_URL ++ "/topic/t1"⟩]

/-- Concrete methods list for the witness. -/
def exMethods : List MethodRow :=
  [⟨"Topic One", "MethodA", "2020", "5", some "Paper A"⟩]

/-- Concrete detailed results for the witness. -/
def exDetailed :
    List (String × List (String × List (List String × List String))) :=
  [(BASE_URL ++ "/topic/t1",
    [(BASE_URL ++ "/method/m1", [(["Paper Title"], ["Paper abstract."])])])]

/-- Witness for claim C9: the concrete run's document survives the
serialize-then-parse round trip. -/
theorem final_doc_roundtrip_w :
    jparse (jemit (finalJson exInfos exMethods exDetailed) 0) =
      some (finalJson exInfos exMethods exDetailed) :=
  (final_doc_roundtrip exStaticSiteGood exInfos exMethods exDetailed
    (by rfl) (by rfl)).1
